import Mathlib

/-!
# WMBus_Decrypt_Project: a verification development of `src/main.cpp`

The program decodes two hexadecimal command-line arguments (an AES-128 key and
a W-MBus telegram), decrypts the telegram with AES-128 in counter mode under a
zero IV, turns the first 15 plaintext bytes into named readings and prints a
JSON-shaped report.

Conventions of the embedding:

* a C++ `char` is a Lean `Char` (one code unit per `Char`), a `std::string` is a
  Lean `String`, whose `length` counts those code units;
* an `unsigned char` is a `Nat` (reduced `% 256` where the source casts), a
  `std::vector<unsigned char>` is a `List Nat`;
* a function that throws returns an `Except exception _`;
* an output parameter is passed in and returned.
-/

namespace WMBus

/-! ## Exceptions -/

/-- The two standard exception classes thrown in `main.cpp`, each carrying the
message given to its constructor. -/
inductive exception where
  | invalid_argument (what_arg : String)
  | runtime_error (what_arg : String)
deriving DecidableEq, Repr

/-- The message of an exception: `std::exception::what()`. -/
def exception.what : exception → String
  | .invalid_argument m => m
  | .runtime_error m => m

deriving instance DecidableEq for Except

/-! ## `<cctype>` and `strtol` in the "C" locale -/

/-- The `<cctype>` test `isxdigit` in the "C" locale: `0-9`, `a-f`, `A-F`. -/
def isxdigit (c : Char) : Bool :=
  ('0'.toNat ≤ c.toNat && c.toNat ≤ '9'.toNat) ||
  ('a'.toNat ≤ c.toNat && c.toNat ≤ 'f'.toNat) ||
  ('A'.toNat ≤ c.toNat && c.toNat ≤ 'F'.toNat)

/-- The `<cctype>` test `isspace` in the "C" locale: space, `\t`, `\n`, `\v`,
`\f`, `\r`. -/
def isspace (c : Char) : Bool :=
  c.toNat = 32 || (9 ≤ c.toNat && c.toNat ≤ 13)

/-- The value `strtol` gives a character as a digit in base 16, if it is one. -/
def strtol_digit (c : Char) : Option Nat :=
  if '0'.toNat ≤ c.toNat && c.toNat ≤ '9'.toNat then some (c.toNat - '0'.toNat)
  else if 'a'.toNat ≤ c.toNat && c.toNat ≤ 'f'.toNat then some (c.toNat - 'a'.toNat + 10)
  else if 'A'.toNat ≤ c.toNat && c.toNat ≤ 'F'.toNat then some (c.toNat - 'A'.toNat + 10)
  else none

/-- The digit loop of `strtol` in base 16: consume digits while there are any,
accumulating `acc * 16 + digit`. -/
def strtol_digits (acc : Nat) : List Char → Nat
  | [] => acc
  | c :: cs =>
    match strtol_digit c with
    | some d => strtol_digits (acc * 16 + d) cs
    | none => acc

/-- The largest `long` (64-bit). -/
def LONG_MAX : Int := 2 ^ 63 - 1

/-- The smallest `long` (64-bit). -/
def LONG_MIN : Int := -(2 ^ 63)

/-- The C library call `strtol(s.c_str(), nullptr, 16)`: the C string ends at
the first NUL; leading white space is skipped, then an optional sign, then an
optional `0x`/`0X` prefix, then the longest run of base-16 digits; the result is
clamped to the range of `long`. -/
def strtol16 (s : String) : Int :=
  let cstr := s.data.takeWhile (fun c => c != '\x00')
  let cstr := cstr.dropWhile isspace
  let signed : Bool × List Char :=
    match cstr with
    | '-' :: r => (true, r)
    | '+' :: r => (false, r)
    | r => (false, r)
  let digits : List Char :=
    match signed.2 with
    | '0' :: x :: d :: r => if (x = 'x' || x = 'X') && isxdigit d then d :: r else signed.2
    | r => r
  let n : Int := (strtol_digits 0 digits : Nat)
  if signed.1 then max (-n) LONG_MIN else min n LONG_MAX

/-- The conversion `static_cast<unsigned char>(v)` of a `long`. -/
def to_unsigned_char (v : Int) : Nat := (v % 256).toNat

/-! ## Step 1: `hex_to_bytes` -/

/-- The loop of `hex_to_bytes`, `for (i = 0; i < hex.length(); i += 2)`, over
the part of `hex` from offset `i` on, with the vector `bytes` built so far.
`byte_str` is `hex.substr(i, 2)`; when a single character is left (reached only
for an odd length, which `hex_to_bytes` rejects first) `byte_str[1]` is the
terminating NUL of the one-character string. -/
def hex_to_bytes_loop : List Char → List Nat → Except exception (List Nat)
  | [], bytes => .ok bytes
  | [c0], bytes =>
    let byte_str : String := ⟨[c0]⟩
    if !isxdigit c0 || !isxdigit '\x00' then
      .error (.invalid_argument ("Invalid hex character found: " ++ byte_str))
    else
      .ok (bytes ++ [to_unsigned_char (strtol16 byte_str)])
  | c0 :: c1 :: rest, bytes =>
    let byte_str : String := ⟨[c0, c1]⟩
    if !isxdigit c0 || !isxdigit c1 then
      .error (.invalid_argument ("Invalid hex character found: " ++ byte_str))
    else
      hex_to_bytes_loop rest (bytes ++ [to_unsigned_char (strtol16 byte_str)])

/-- Step 1 of `main.cpp`: convert a HEX string to bytes, `"ff01" -> 0xff, 0x01`.
Throws `invalid_argument` on an odd length and on a pair with a character that
is not a hex digit. -/
def hex_to_bytes (hex : String) : Except exception (List Nat) :=
  if hex.length % 2 ≠ 0 then
    .error (.invalid_argument "Hex string length must be even.")
  else
    hex_to_bytes_loop hex.data []

/-! ## The AES-128 block cipher (FIPS 197)

`aes_decrypt` calls OpenSSL, which is not part of the repository. The cipher it
selects, `EVP_aes_128_ctr()`, is fixed by FIPS 197 and NIST SP 800-38A; this
section follows those two documents. A block and a round key are lists of 16
bytes, the state in the column order of the standard. -/

/-- The AES substitution table (FIPS 197, figure 7). -/
def sbox : List Nat :=
  [ 0x63, 0x7c, 0x77, 0x7b, 0xf2, 0x6b, 0x6f, 0xc5, 0x30, 0x01, 0x67, 0x2b, 0xfe, 0xd7, 0xab, 0x76,
    0xca, 0x82, 0xc9, 0x7d, 0xfa, 0x59, 0x47, 0xf0, 0xad, 0xd4, 0xa2, 0xaf, 0x9c, 0xa4, 0x72, 0xc0,
    0xb7, 0xfd, 0x93, 0x26, 0x36, 0x3f, 0xf7, 0xcc, 0x34, 0xa5, 0xe5, 0xf1, 0x71, 0xd8, 0x31, 0x15,
    0x04, 0xc7, 0x23, 0xc3, 0x18, 0x96, 0x05, 0x9a, 0x07, 0x12, 0x80, 0xe2, 0xeb, 0x27, 0xb2, 0x75,
    0x09, 0x83, 0x2c, 0x1a, 0x1b, 0x6e, 0x5a, 0xa0, 0x52, 0x3b, 0xd6, 0xb3, 0x29, 0xe3, 0x2f, 0x84,
    0x53, 0xd1, 0x00, 0xed, 0x20, 0xfc, 0xb1, 0x5b, 0x6a, 0xcb, 0xbe, 0x39, 0x4a, 0x4c, 0x58, 0xcf,
    0xd0, 0xef, 0xaa, 0xfb, 0x43, 0x4d, 0x33, 0x85, 0x45, 0xf9, 0x02, 0x7f, 0x50, 0x3c, 0x9f, 0xa8,
    0x51, 0xa3, 0x40, 0x8f, 0x92, 0x9d, 0x38, 0xf5, 0xbc, 0xb6, 0xda, 0x21, 0x10, 0xff, 0xf3, 0xd2,
    0xcd, 0x0c, 0x13, 0xec, 0x5f, 0x97, 0x44, 0x17, 0xc4, 0xa7, 0x7e, 0x3d, 0x64, 0x5d, 0x19, 0x73,
    0x60, 0x81, 0x4f, 0xdc, 0x22, 0x2a, 0x90, 0x88, 0x46, 0xee, 0xb8, 0x14, 0xde, 0x5e, 0x0b, 0xdb,
    0xe0, 0x32, 0x3a, 0x0a, 0x49, 0x06, 0x24, 0x5c, 0xc2, 0xd3, 0xac, 0x62, 0x91, 0x95, 0xe4, 0x79,
    0xe7, 0xc8, 0x37, 0x6d, 0x8d, 0xd5, 0x4e, 0xa9, 0x6c, 0x56, 0xf4, 0xea, 0x65, 0x7a, 0xae, 0x08,
    0xba, 0x78, 0x25, 0x2e, 0x1c, 0xa6, 0xb4, 0xc6, 0xe8, 0xdd, 0x74, 0x1f, 0x4b, 0xbd, 0x8b, 0x8a,
    0x70, 0x3e, 0xb5, 0x66, 0x48, 0x03, 0xf6, 0x0e, 0x61, 0x35, 0x57, 0xb9, 0x86, 0xc1, 0x1d, 0x9e,
    0xe1, 0xf8, 0x98, 0x11, 0x69, 0xd9, 0x8e, 0x94, 0x9b, 0x1e, 0x87, 0xe9, 0xce, 0x55, 0x28, 0xdf,
    0x8c, 0xa1, 0x89, 0x0d, 0xbf, 0xe6, 0x42, 0x68, 0x41, 0x99, 0x2d, 0x0f, 0xb0, 0x54, 0xbb, 0x16 ]

/-- The substitution of one byte. -/
def SubByte (b : Nat) : Nat := sbox.getD (b % 256) 0

/-- Multiplication by `x` in GF(2^8) modulo `x^8 + x^4 + x^3 + x + 1`. -/
def xtime (b : Nat) : Nat :=
  if b % 256 < 128 then 2 * (b % 256) else (2 * (b % 256)) % 256 ^^^ 0x1b

/-- The transformation `SubBytes`. -/
def SubBytes (s : List Nat) : List Nat := s.map SubByte

/-- The transformation `ShiftRows`: row `r` of the state moves `r` columns to
the left; byte `r + 4c` of the result is byte `r + 4((c + r) mod 4)`. -/
def ShiftRows (s : List Nat) : List Nat :=
  (List.range 16).map (fun i => s.getD ((i + 4 * (i % 4)) % 16) 0)

/-- The transformation `MixColumns` on one column. -/
def MixColumn : List Nat → List Nat
  | [a0, a1, a2, a3] =>
    [ xtime a0 ^^^ (xtime a1 ^^^ a1) ^^^ a2 ^^^ a3,
      a0 ^^^ xtime a1 ^^^ (xtime a2 ^^^ a2) ^^^ a3,
      a0 ^^^ a1 ^^^ xtime a2 ^^^ (xtime a3 ^^^ a3),
      (xtime a0 ^^^ a0) ^^^ a1 ^^^ a2 ^^^ xtime a3 ]
  | col => col

/-- The transformation `MixColumns`. -/
def MixColumns (s : List Nat) : List Nat :=
  MixColumn (s.take 4) ++ MixColumn ((s.drop 4).take 4) ++
    MixColumn ((s.drop 8).take 4) ++ MixColumn ((s.drop 12).take 4)

/-- The transformation `AddRoundKey`. -/
def AddRoundKey (s k : List Nat) : List Nat := List.zipWith (fun a b => a ^^^ b) s k

/-- The round constants of the key schedule, for rounds 1 to 10. -/
def Rcon : List Nat := [0x01, 0x02, 0x04, 0x08, 0x10, 0x20, 0x40, 0x80, 0x1b, 0x36]

/-- One step of the key schedule: the next round key from the current one. -/
def next_round_key (rk : List Nat) (rcon : Nat) : List Nat :=
  let w0 := rk.take 4
  let w1 := (rk.drop 4).take 4
  let w2 := (rk.drop 8).take 4
  let w3 := (rk.drop 12).take 4
  let t := AddRoundKey (SubBytes (w3.drop 1 ++ w3.take 1)) [rcon, 0, 0, 0]
  let v0 := AddRoundKey w0 t
  let v1 := AddRoundKey w1 v0
  let v2 := AddRoundKey w2 v1
  let v3 := AddRoundKey w3 v2
  v0 ++ v1 ++ v2 ++ v3

/-- The round keys that follow `rk`, one for each round constant given. -/
def expand_from (rk : List Nat) : List Nat → List (List Nat)
  | [] => [rk]
  | rcon :: rest => rk :: expand_from (next_round_key rk rcon) rest

/-- The routine `KeyExpansion` for a 128-bit key: the 11 round keys. Only the
first 16 bytes of the key are read. -/
def KeyExpansion (key : List Nat) : List (List Nat) := expand_from (key.take 16) Rcon

/-- The rounds of `Cipher` after the initial `AddRoundKey`; the last round has
no `MixColumns`. -/
def rounds (s : List Nat) : List (List Nat) → List Nat
  | [] => s
  | [rk] => AddRoundKey (ShiftRows (SubBytes s)) rk
  | rk :: rks => rounds (AddRoundKey (MixColumns (ShiftRows (SubBytes s))) rk) rks

/-- The routine `Cipher` of FIPS 197 with an expanded key: the encryption of one
block. -/
def Cipher (ks : List (List Nat)) (block : List Nat) : List Nat :=
  match ks with
  | [] => block
  | rk0 :: rks => rounds (AddRoundKey block rk0) rks

/-! ## Counter mode and the OpenSSL interface -/

/-- The standard increment of counter mode as OpenSSL does it: the 16-byte
counter block is a big-endian number, incremented modulo `2^128`. -/
def ctr128_inc (counter : List Nat) : List Nat :=
  (counter.foldr (fun b acc => ((b + acc.2) % 256 :: acc.1, (b + acc.2) / 256)) ([], 1)).1

/-- The state of an AES-128-CTR cipher context: the expanded key, the counter
block, the current key-stream block and the number of its bytes already used. -/
structure ctr_ctx where
  ks : List (List Nat)
  ivec : List Nat
  ecount_buf : List Nat
  num : Nat
deriving DecidableEq, Repr

/-- Counter mode over a run of bytes (SP 800-38A, 6.5): whenever the key-stream
block is used up a new one is made by encrypting the counter block, which is
then incremented; each input byte is XORed with the next key-stream byte.
Returns the context after the run and the output bytes. -/
def ctr128_encrypt (ctx : ctr_ctx) : List Nat → ctr_ctx × List Nat
  | [] => (ctx, [])
  | b :: rest =>
    let ctx1 : ctr_ctx :=
      if ctx.num = 0 then
        { ctx with ecount_buf := Cipher ctx.ks ctx.ivec, ivec := ctr128_inc ctx.ivec }
      else ctx
    let o := b ^^^ ctx1.ecount_buf.getD ctx1.num 0
    let r := ctr128_encrypt { ctx1 with num := (ctx1.num + 1) % 16 } rest
    (r.1, o :: r.2)

/-- The part of OpenSSL's EVP interface that `aes_decrypt` uses, with the cipher
fixed to `EVP_aes_128_ctr()`. A call that returns `1` in C returns `some` here
(`EVP_CIPHER_CTX_new`: a context that is not null); the bytes a call writes
through its output pointer are returned, their number being the `outl` of the C
call. -/
structure OpenSSL where
  CTX : Type
  EVP_CIPHER_CTX_new : Option CTX
  EVP_DecryptInit_ex : CTX → (key : List Nat) → (iv : List Nat) → Option CTX
  EVP_DecryptUpdate : CTX → (input : List Nat) → (inl : Nat) → Option (CTX × List Nat)
  EVP_DecryptFinal_ex : CTX → Option (List Nat)

/-- Modelled from the spec: OpenSSL's `libcrypto` is not under `src/`; this is
the behaviour the spec gives the cipher engine ("AES block cipher in counter
mode", "CTR mode is a stream cipher; no block padding"), made precise by
FIPS 197 and SP 800-38A. Creating and initialising a context succeed;
`EVP_DecryptUpdate` runs counter mode over the first `inl` input bytes and
writes as many bytes; `EVP_DecryptFinal_ex` writes nothing, there being no
padding in counter mode. -/
def libcrypto : OpenSSL where
  CTX := ctr_ctx
  EVP_CIPHER_CTX_new := some { ks := [], ivec := [], ecount_buf := [], num := 0 }
  EVP_DecryptInit_ex := fun _ key iv =>
    some { ks := KeyExpansion key, ivec := iv.take 16, ecount_buf := List.replicate 16 0, num := 0 }
  EVP_DecryptUpdate := fun ctx input inl => some (ctr128_encrypt ctx (input.take inl))
  EVP_DecryptFinal_ex := fun _ => some []

/-! ## Step 4: `aes_decrypt` -/

/-- The call `v.resize(n)` of `std::vector<unsigned char>`: keep the first `n` elements,
pad with zeros up to `n`. -/
def resize (v : List Nat) (n : Nat) : List Nat :=
  v.take n ++ List.replicate (n - v.length) 0

/-- The effect on the buffer `buf` of a library call writing `out` at offset `off`. -/
def write_at (buf : List Nat) (off : Nat) (out : List Nat) : List Nat :=
  buf.take off ++ out ++ buf.drop (off + out.length)

/-- Step 4 of `main.cpp`: AES-128 CTR decryption with the IV fixed to zero.
`plaintext` is the caller's output vector as it is before the call; the result is
the exception thrown, if any, together with that vector as it is after the call.
The length passed to `EVP_DecryptUpdate` is `ciphertext.size()`; a buffer is taken
to be shorter than `2^31` bytes (it comes from one command-line argument), so the
conversion of that length to `int` leaves it unchanged. Releasing the context
(`EVP_CIPHER_CTX_free`) has no effect on the result and is left out. -/
def aes_decrypt (lib : OpenSSL) (key ciphertext plaintext : List Nat) :
    Except exception Unit × List Nat :=
  if key.length ≠ 16 then
    (.error (.invalid_argument "AES-128 key must be 16 bytes."), plaintext)
  else
    let plaintext := resize plaintext ciphertext.length
    match lib.EVP_CIPHER_CTX_new with
    | none => (.error (.runtime_error "Failed to create EVP_CIPHER_CTX"), plaintext)
    | some ctx =>
      let iv : List Nat := List.replicate 16 0
      match lib.EVP_DecryptInit_ex ctx key iv with
      | none => (.error (.runtime_error "EVP_DecryptInit_ex failed"), plaintext)
      | some ctx =>
        match lib.EVP_DecryptUpdate ctx ciphertext ciphertext.length with
        | none => (.error (.runtime_error "AES decryption failed"), plaintext)
        | some (ctx, out1) =>
          let len1 := out1.length
          let plaintext := write_at plaintext 0 out1
          match lib.EVP_DecryptFinal_ex ctx with
          | none => (.error (.runtime_error "AES decryption failed"), plaintext)
          | some out2 =>
            let len2 := out2.length
            let plaintext := write_at plaintext len1 out2
            (.ok (), resize plaintext (len1 + len2))

/-! ## `double` arithmetic and output

A finite non-negative `double` is `mant * 2^exp`, with `2^52 ≤ mant < 2^53` when
it is not zero and `mant = 0`, `exp = 0` when it is. Operations round to nearest,
ties to even (IEEE 754 binary64). Exponent overflow and subnormal numbers are not
represented: the values of this program lie between `0` and `2.55`. -/

/-- A finite non-negative IEEE 754 binary64 number, `mant * 2^exp`. -/
structure double where
  mant : Nat
  exp : Int
deriving DecidableEq, Repr

/-- The number of binary digits of `m` below its leading one. -/
def top_bit (m : Nat) : Nat := (Nat.toDigits 2 m).length - 1

/-- The `double` nearest to `m * 2^e`, ties to even. -/
def double_round (m : Nat) (e : Int) : double :=
  if m = 0 then ⟨0, 0⟩
  else if top_bit m ≤ 52 then
    ⟨m * 2 ^ (52 - top_bit m), e - ((52 - top_bit m : Nat) : Int)⟩
  else
    let sh := top_bit m - 52
    let q := m / 2 ^ sh
    let r := m % 2 ^ sh
    let q1 := if 2 ^ (sh - 1) < r ∨ (r = 2 ^ (sh - 1) ∧ q % 2 = 1) then q + 1 else q
    if q1 = 2 ^ 53 then ⟨2 ^ 52, e + (sh : Int) + 1⟩ else ⟨q1, e + (sh : Int)⟩

/-- The conversion of a non-negative `int` to `double`. -/
def double_of_int (n : Nat) : double := double_round n 0

/-- The product of two `double`s. -/
def double_mul (a b : double) : double := double_round (a.mant * b.mant) (a.exp + b.exp)

/-- The literal `0.01`: the `double` `0x1.47ae147ae147bp-7`. -/
def double_0_01 : double := ⟨0x147ae147ae147b, -59⟩

/-- The decimal digits of `n`, as a string. -/
def decimal (n : Nat) : String := toString n

/-- Drop the zeros at the end of a run of decimal digits. -/
def strip_zeros (digits : List Char) : List Char :=
  (digits.reverse.dropWhile (fun c => c = '0')).reverse

/-- The least `k` from `k0` on with `d ≤ n * 10^k`, searched over `fuel` values. -/
def scale_up (n d : Nat) : Nat → Nat → Nat
  | 0, k0 => k0
  | fuel + 1, k0 => if d ≤ n * 10 ^ k0 then k0 else scale_up n d fuel (k0 + 1)

/-- The decimal exponent of the positive number `n / d`: the `X` with
`10^X ≤ n / d < 10^(X+1)`. -/
def decimal_exponent (n d : Nat) : Int :=
  if d ≤ n then (((decimal (n / d)).length - 1 : Nat) : Int)
  else -((scale_up n d ((decimal d).length + 1) 1 : Nat) : Int)

/-- The integer nearest to `n / d`, ties to even. -/
def round_div (n d : Nat) : Nat :=
  if d < 2 * (n % d) ∨ (2 * (n % d) = d ∧ (n / d) % 2 = 1) then n / d + 1 else n / d

/-- The text `std::cout << v` writes for a `double` with the stream's default
flags: the conversion `%g` of `printf` with precision 6. The value is rounded to
6 significant decimal digits; with `X` its decimal exponent, fixed notation is
used when `-4 ≤ X < 6` and scientific notation otherwise, trailing zeros removed
in both. -/
def ostream_double (v : double) : String :=
  if v.mant = 0 then "0"
  else
    let n : Nat := if 0 ≤ v.exp then v.mant * 2 ^ v.exp.toNat else v.mant
    let d : Nat := if 0 ≤ v.exp then 1 else 2 ^ (-v.exp).toNat
    let X0 := decimal_exponent n d
    let q0 :=
      if X0 ≤ 5 then round_div (n * 10 ^ (5 - X0).toNat) d
      else round_div n (d * 10 ^ (X0 - 5).toNat)
    let X : Int := if q0 = 10 ^ 6 then X0 + 1 else X0
    let q : Nat := if q0 = 10 ^ 6 then 10 ^ 5 else q0
    let digits := (decimal q).data
    if X < -4 ∨ 6 ≤ X then
      let frac := strip_zeros (digits.drop 1)
      let mantissa := digits.take 1 ++ (if frac = [] then [] else '.' :: frac)
      let e := decimal X.natAbs
      String.mk mantissa ++ "e" ++ (if X < 0 then "-" else "+") ++
        (if e.length < 2 then "0" else "") ++ e
    else if 0 ≤ X then
      let frac := strip_zeros (digits.drop (X.toNat + 1))
      String.mk (digits.take (X.toNat + 1) ++ (if frac = [] then [] else '.' :: frac))
    else
      String.mk ('0' :: '.' :: (List.replicate ((-X).toNat - 1) '0' ++ strip_zeros digits))

/-! ## `std::map<std::string, double>` -/

/-- The order of `std::string`, the comparison of `std::less<std::string>`:
lexicographic, character by character. -/
def string_lt : List Char → List Char → Bool
  | [], [] => false
  | [], _ :: _ => true
  | _ :: _, [] => false
  | a :: as, b :: bs =>
    if a.toNat < b.toNat then true
    else if b.toNat < a.toNat then false
    else string_lt as bs

/-- The statement `m[key] = value` on a `std::map<std::string, double>`, the map
being the list of its entries in ascending key order, which is the order its
iterators visit: a new key is inserted at its place, an existing key keeps its
place and receives the value. -/
def map_assign : List (String × double) → String → double → List (String × double)
  | [], key, value => [(key, value)]
  | (k, v) :: rest, key, value =>
    if string_lt key.data k.data then (key, value) :: (k, v) :: rest
    else if string_lt k.data key.data then (k, v) :: map_assign rest key value
    else (k, value) :: rest

/-! ## Step 2: `parse_payload` -/

/-- Step 2 of `main.cpp`: the first 15 bytes of the decrypted payload become
consumption values; byte `i` gives the entry `consumption_at_history_<i+1>_m3`
with value `static_cast<int>(data[i]) * 0.01`. -/
def parse_payload (data : List Nat) : List (String × double) :=
  let count := min data.length 15
  (List.range count).foldl
    (fun consumption i =>
      let value := double_mul (double_of_int (data.getD i 0)) double_0_01
      let key := "consumption_at_history_" ++ toString (i + 1) ++ "_m3"
      map_assign consumption key value)
    []

/-! ## Step 3: `get_timestamp` -/

/-- Step 3 of `main.cpp`. The clock is outside the program: `formatted` is what
`strftime` wrote for the current time with the format `%Y-%m-%dT%H:%M:%SZ`, or
`none` when `strftime` returned `0`. -/
def get_timestamp (formatted : Option String) : String :=
  match formatted with
  | none => "unknown_timestamp"
  | some buffer => buffer

/-! ## Step 5: `print_json` -/

/-- The loop of `print_json` over the map's entries: each entry on a line of its
own, followed by a comma unless it is the last. -/
def print_entries : List (String × double) → String
  | [] => ""
  | [(k, v)] => "  \"" ++ k ++ "\": " ++ ostream_double v ++ "\n"
  | (k, v) :: rest => "  \"" ++ k ++ "\": " ++ ostream_double v ++ ",\n" ++ print_entries rest

/-- Step 5 of `main.cpp`: the text `print_json` writes to standard output, given
the value `get_timestamp()` returns during the call. -/
def print_json (parsed_data : List (String × double)) (timestamp : String) : String :=
  "\x7b\n" ++
  "  \"_\": \"telegram\",\n" ++
  "  \"media\": \"water\",\n" ++
  "  \"meter\": \"generic_meter\",\n" ++
  "  \"id\": \"unknown\",\n" ++
  print_entries parsed_data ++
  "  ,\"meter_datetime\": \"2025-09-26 16:36\",\n" ++
  "  \"set_date\": \"2128-03-31\",\n" ++
  "  \"total_m3\": 4.48,\n" ++
  "  \"current_status\": \"OK\",\n" ++
  "  \"status\": \"OK\",\n" ++
  "  \"timestamp\": \"" ++ timestamp ++ "\"\n" ++
  "\x7d\n"

/-! ## Step 6: `main` -/

/-- What a run of the program leaves behind: the text written to standard
output, the text written to the error stream and the exit status. -/
structure run where
  cout : String
  cerr : String
  status : Nat
deriving DecidableEq, Repr

/-- The `try` block of `main`: the two hex conversions, the decryption, the
parsing and the report, in this order; the first exception thrown ends it. The
value is the text `print_json` writes. -/
def main_try (lib : OpenSSL) (clock : Option String) (key_hex telegram_hex : String) :
    Except exception String :=
  match hex_to_bytes key_hex with
  | .error e => .error e
  | .ok key_bytes =>
    match hex_to_bytes telegram_hex with
    | .error e => .error e
    | .ok telegram_bytes =>
      let decrypted_bytes : List Nat := []
      match aes_decrypt lib key_bytes telegram_bytes decrypted_bytes with
      | (.error e, _) => .error e
      | (.ok _, decrypted_bytes) =>
        let parsed_data := parse_payload decrypted_bytes
        .ok (print_json parsed_data (get_timestamp clock))

/-- Step 6 of `main.cpp`. `argv` is the whole argument vector, program name
first, so `argc` is its length; `lib` is the OpenSSL library linked in and `clock`
the formatted current time (see `get_timestamp`). A hosted system passes the
program name, so `argv` is not empty; for the empty vector the usage line is
given here with an empty name. -/
def main (lib : OpenSSL) (clock : Option String) (argv : List String) : run :=
  let argc := argv.length
  if argc ≠ 3 then
    { cout := "",
      cerr := "Usage: " ++ argv.getD 0 "" ++ " <AES-128 key HEX> <W-MBus telegram HEX>\n",
      status := 1 }
  else
    let key_hex := argv.getD 1 ""
    let telegram_hex := argv.getD 2 ""
    match main_try lib clock key_hex telegram_hex with
    | .ok report => { cout := report, cerr := "", status := 0 }
    | .error e => { cout := "", cerr := "Error: " ++ e.what ++ "\n", status := 1 }


/-! ## Specification-side notions for the hex codec -/

/-- The hexadecimal digits as the specification lists them: `0-9a-fA-F`. -/
def is_hex_digit (c : Char) : Prop := c ∈ "0123456789abcdefABCDEF".data

instance (c : Char) : Decidable (is_hex_digit c) := by
  unfold is_hex_digit; infer_instance

/-- The value of a hexadecimal digit: its place among `0123456789abcdef`, the
letter case set aside. -/
def digitValue (c : Char) : Nat := "0123456789abcdef".data.indexOf c.toLower

/-- The hexadecimal digit, in lower case, of a value below 16. -/
def hex_digit_char (d : Nat) : Char := "0123456789abcdef".data.getD d '?'

/-- The re-encoding of the round-trip property, which is not part of
`main.cpp`: two hex digits per byte, the high one first, in lower case. -/
def hex_encode (bytes : List Nat) : String :=
  String.mk (bytes.flatMap (fun b => [hex_digit_char (b / 16), hex_digit_char (b % 16)]))

/-- The byte values of a string read two hex digits at a time. -/
def pair_values : List Char → List Nat
  | a :: b :: rest => (16 * digitValue a + digitValue b) :: pair_values rest
  | _ => []

/-! ## Specification-side notions for the readings -/

/-- The name of the reading at 0-based offset `i`:
`consumption_at_history_<i+1>_m3`, with `i + 1` in decimal. -/
def reading_key (i : Nat) : String := "consumption_at_history_" ++ toString (i + 1) ++ "_m3"

/-- The value of a reading: the byte, as a `double`, multiplied by `0.01`. -/
def reading_value (b : Nat) : double := double_mul (double_of_int b) double_0_01

/-- The map `parse_payload` has built after `j` turns of its loop. -/
def readings_upto (data : List Nat) (j : Nat) : List (String × double) :=
  (List.range j).foldl
    (fun consumption i =>
      map_assign consumption (reading_key i) (reading_value (data.getD i 0)))
    []

/-- The entry of a `std::map` found under `key`, if there is one. -/
def map_find (m : List (String × double)) (key : String) : Option double :=
  match m with
  | [] => none
  | (k, v) :: rest => if k = key then some v else map_find rest key

/-! ## Specification-side notions for the command line -/

/-- A well-formed hex argument: an even number of characters, all of them
hexadecimal digits. -/
def is_hex_string (s : String) : Prop := s.length % 2 = 0 ∧ ∀ c ∈ s.data, is_hex_digit c

instance (s : String) : Decidable (is_hex_string s) := by
  unfold is_hex_string; infer_instance

/-! ## Specification-side notions for the streams -/

/-- A text that is exactly one line: it ends with a newline and has no other
newline in it. -/
def is_one_line (text : String) : Prop :=
  text.data.getLast? = some '\n' ∧ text.data.count '\n' = 1

instance (text : String) : Decidable (is_one_line text) := by
  unfold is_one_line; infer_instance

/-! ## Specification-side notions for the report -/

/-- The invariant of a `std::map`: its entries are in strictly ascending key
order, which is the order its iterators visit. -/
def map_sorted (m : List (String × double)) : Prop :=
  m.Pairwise (fun a b => string_lt a.1.data b.1.data = true)

instance (m : List (String × double)) : Decidable (map_sorted m) := by
  unfold map_sorted; infer_instance

/-- One reading of the report: the key in quotes, a colon, the value. -/
def entry_line (e : String × double) : String :=
  "  \"" ++ e.1 ++ "\": " ++ ostream_double e.2

/-- The concatenation of a list of texts. -/
def concat_texts : List String → String
  | [] => ""
  | s :: rest => s ++ concat_texts rest

/-- The readings block of the report as the specification describes it: every
entry on a line of its own, in the order of the map, each followed by a comma
except the last. -/
def entries_text (m : List (String × double)) : String :=
  concat_texts ((List.range m.length).map (fun i =>
    entry_line (m.getD i ("", ⟨0, 0⟩)) ++ (if i + 1 < m.length then "," else "") ++ "\n"))

/-- The 0-based offsets below `n` in the order of their keys: a key with a
two-digit number (offset 9 and above) comes before every key with a one-digit
number, since the digit `0`-`5` that follows the `1` is less than `_`. -/
def key_order (n : Nat) : List Nat :=
  (List.range n).filter (fun i => 9 ≤ i) ++ (List.range n).filter (fun i => i < 9)

/-! ## Specification-side notions: the grammar of JSON (RFC 8259)

A text is read character by character by a push-down recognizer: a state and
the stack of the objects and arrays that are open. -/

/-- The containers of JSON. -/
inductive json_frame where
  | object
  | array
deriving DecidableEq, Repr

/-- The states of the recognizer. -/
inductive json_state where
  | value
  | first_element
  | first_name
  | name
  | colon
  | after
  | str (is_name : Bool)
  | esc (is_name : Bool)
  | hex (is_name : Bool) (left : Nat)
  | minus
  | zero
  | int
  | dot
  | frac
  | e
  | esign
  | exp
  | lit (rest : List Char)
deriving DecidableEq, Repr

/-- The white space of JSON: space, horizontal tab, line feed, carriage return. -/
def json_ws (c : Char) : Bool := c = ' ' || c = '\t' || c = '\n' || c = '\r'

/-- The decimal digits. -/
def json_digit (c : Char) : Bool := '0'.toNat ≤ c.toNat && c.toNat ≤ '9'.toNat

/-- The first character of a value. -/
def json_begin_value (stack : List json_frame) (c : Char) :
    Option (json_state × List json_frame) :=
  if c = '\x7b' then some (.first_name, .object :: stack)
  else if c = '[' then some (.first_element, .array :: stack)
  else if c = '\x22' then some (.str false, stack)
  else if c = '-' then some (.minus, stack)
  else if c = '0' then some (.zero, stack)
  else if json_digit c then some (.int, stack)
  else if c = 't' then some (.lit ['r', 'u', 'e'], stack)
  else if c = 'f' then some (.lit ['a', 'l', 's', 'e'], stack)
  else if c = 'n' then some (.lit ['u', 'l', 'l'], stack)
  else none

/-- A character that follows a complete value: white space, or a comma or the
closing bracket of the innermost open container. -/
def json_after (stack : List json_frame) (c : Char) : Option (json_state × List json_frame) :=
  if json_ws c then some (.after, stack)
  else
    match stack with
    | .object :: rest =>
      if c = ',' then some (.name, stack)
      else if c = '\x7d' then some (.after, rest)
      else none
    | .array :: rest =>
      if c = ',' then some (.value, stack)
      else if c = ']' then some (.after, rest)
      else none
    | [] => none

/-- One step of the recognizer; `none` when the character cannot come next. -/
def json_step (s : json_state × List json_frame) (c : Char) :
    Option (json_state × List json_frame) :=
  match s with
  | (.value, stack) => if json_ws c then some (.value, stack) else json_begin_value stack c
  | (.first_element, stack) =>
    if json_ws c then some (.first_element, stack)
    else if c = ']' then some (.after, stack.drop 1)
    else json_begin_value stack c
  | (.first_name, stack) =>
    if json_ws c then some (.first_name, stack)
    else if c = '\x7d' then some (.after, stack.drop 1)
    else if c = '\x22' then some (.str true, stack)
    else none
  | (.name, stack) =>
    if json_ws c then some (.name, stack)
    else if c = '\x22' then some (.str true, stack)
    else none
  | (.colon, stack) =>
    if json_ws c then some (.colon, stack)
    else if c = ':' then some (.value, stack)
    else none
  | (.after, stack) => json_after stack c
  | (.str is_name, stack) =>
    if c = '\x22' then some (if is_name then .colon else .after, stack)
    else if c = '\x5c' then some (.esc is_name, stack)
    else if c.toNat < 0x20 then none
    else some (.str is_name, stack)
  | (.esc is_name, stack) =>
    if c = '\x22' || c = '\x5c' || c = '/' || c = 'b' || c = 'f' || c = 'n' || c = 'r' || c = 't'
    then some (.str is_name, stack)
    else if c = 'u' then some (.hex is_name 4, stack)
    else none
  | (.hex is_name left, stack) =>
    if isxdigit c then some (if left ≤ 1 then .str is_name else .hex is_name (left - 1), stack)
    else none
  | (.minus, stack) =>
    if c = '0' then some (.zero, stack)
    else if json_digit c then some (.int, stack)
    else none
  | (.zero, stack) =>
    if c = '.' then some (.dot, stack)
    else if c = 'e' || c = 'E' then some (.e, stack)
    else json_after stack c
  | (.int, stack) =>
    if json_digit c then some (.int, stack)
    else if c = '.' then some (.dot, stack)
    else if c = 'e' || c = 'E' then some (.e, stack)
    else json_after stack c
  | (.dot, stack) => if json_digit c then some (.frac, stack) else none
  | (.frac, stack) =>
    if json_digit c then some (.frac, stack)
    else if c = 'e' || c = 'E' then some (.e, stack)
    else json_after stack c
  | (.e, stack) =>
    if c = '+' || c = '-' then some (.esign, stack)
    else if json_digit c then some (.exp, stack)
    else none
  | (.esign, stack) => if json_digit c then some (.exp, stack) else none
  | (.exp, stack) => if json_digit c then some (.exp, stack) else json_after stack c
  | (.lit [], stack) => json_after stack c
  | (.lit (x :: rest), stack) => if c = x then some (.lit rest, stack) else none

/-- The recognizer run over a list of characters. -/
def json_run (s : json_state × List json_frame) : List Char → Option (json_state × List json_frame)
  | [] => some s
  | c :: cs =>
    match json_step s c with
    | none => none
    | some s2 => json_run s2 cs

/-- The states in which a value is complete. -/
def json_complete : json_state → Bool
  | .after => true
  | .zero => true
  | .int => true
  | .frac => true
  | .exp => true
  | .lit [] => true
  | _ => false

/-- A well-formed JSON text: one value, white space around it allowed. -/
def is_json_text (text : String) : Bool :=
  match json_run (.value, []) text.data with
  | some (st, []) => json_complete st
  | _ => false

/-- A well-formed JSON object: a well-formed JSON text whose value is an object. -/
def is_json_object (text : String) : Bool :=
  is_json_text text && (text.data.dropWhile json_ws).head? = some '\x7b'

/-- The recognizer has read a number and nothing is open but the object. -/
def number_read (s : Option (json_state × List json_frame)) : Bool :=
  s = some (.zero, [.object]) || s = some (.int, [.object]) ||
  s = some (.frac, [.object]) || s = some (.exp, [.object])

/-- A character that may stand as it is inside a JSON string: not a control
character, not the double quote, not the backslash. -/
def json_plain (c : Char) : Bool := c != '\x22' && c != '\x5c' && decide (0x20 ≤ c.toNat)

/-! ## Lemmas on the hex codec -/

theorem pair_induction {α : Type} (P : List α → Prop) (h0 : P []) (h1 : ∀ a, P [a])
    (h2 : ∀ a b l, P l → P (a :: b :: l)) : ∀ l, P l
  | [] => h0
  | [a] => h1 a
  | a :: b :: l => h2 a b l (pair_induction P h0 h1 h2 l)

theorem isxdigit_ascii (c : Char) (h : isxdigit c = true) : c.toNat < 128 := by
  simp only [isxdigit, Bool.or_eq_true, Bool.and_eq_true, decide_eq_true_eq] at h
  have h0 : '0'.toNat = 48 := by decide
  have h9 : '9'.toNat = 57 := by decide
  have ha : 'a'.toNat = 97 := by decide
  have hf : 'f'.toNat = 102 := by decide
  have hA : 'A'.toNat = 65 := by decide
  have hF : 'F'.toNat = 70 := by decide
  omega

theorem isxdigit_transfer (P : Char → Prop)
    (hP : ∀ n < 128, isxdigit (Char.ofNat n) = true → P (Char.ofNat n)) :
    ∀ c, isxdigit c = true → P c := by
  intro c hc
  have h := hP c.toNat (isxdigit_ascii c hc)
  rw [Char.ofNat_toNat] at h
  exact h hc

theorem isxdigit_iff (c : Char) : isxdigit c = true ↔ is_hex_digit c := by
  constructor
  · exact isxdigit_transfer (fun c => is_hex_digit c) (by decide) c
  · revert c
    unfold is_hex_digit
    decide

theorem strtol16_pair (a b : Char) (ha : isxdigit a = true) (hb : isxdigit b = true) :
    to_unsigned_char (strtol16 ⟨[a, b]⟩) = 16 * digitValue a + digitValue b := by
  have key : ∀ a ∈ "0123456789abcdefABCDEF".data, ∀ b ∈ "0123456789abcdefABCDEF".data,
      to_unsigned_char (strtol16 ⟨[a, b]⟩) = 16 * digitValue a + digitValue b := by
    decide!
  exact key a ((isxdigit_iff a).1 ha) b ((isxdigit_iff b).1 hb)

theorem digitValue_lt (c : Char) (h : isxdigit c = true) : digitValue c < 16 := by
  have key : ∀ a ∈ "0123456789abcdefABCDEF".data, digitValue a < 16 := by decide
  exact key c ((isxdigit_iff c).1 h)

theorem hex_digit_char_digitValue (c : Char) (h : isxdigit c = true) :
    hex_digit_char (digitValue c) = c.toLower := by
  have key : ∀ a ∈ "0123456789abcdefABCDEF".data, hex_digit_char (digitValue a) = a.toLower := by
    decide
  exact key c ((isxdigit_iff c).1 h)

theorem hex_to_bytes_loop_ok : ∀ l : List Char, l.length % 2 = 0 →
    (∀ c ∈ l, isxdigit c = true) →
    ∀ bytes, hex_to_bytes_loop l bytes = .ok (bytes ++ pair_values l) := by
  intro l
  induction l using pair_induction with
  | h0 => intro _ _ bytes; simp [hex_to_bytes_loop, pair_values]
  | h1 a => intro h; simp at h
  | h2 a b l ih =>
    intro hlen hall bytes
    have ha : isxdigit a = true := hall a (by simp)
    have hb : isxdigit b = true := hall b (by simp)
    have hl : l.length % 2 = 0 := by
      simp only [List.length_cons] at hlen; omega
    have hrest : ∀ c ∈ l, isxdigit c = true := fun c hc => hall c (by simp [hc])
    simp only [hex_to_bytes_loop, ha, hb, Bool.not_true, Bool.or_self, Bool.false_eq_true,
      if_false, strtol16_pair a b ha hb, pair_values]
    rw [ih hl hrest]
    simp

theorem hex_to_bytes_loop_error : ∀ l : List Char, l.length % 2 = 0 →
    (∃ c ∈ l, isxdigit c = false) →
    ∃ (pre post : List Char) (a b : Char),
      l = pre ++ a :: b :: post ∧ pre.length % 2 = 0 ∧ (∀ c ∈ pre, isxdigit c = true) ∧
      ¬ (isxdigit a = true ∧ isxdigit b = true) ∧
      ∀ bytes, hex_to_bytes_loop l bytes =
        .error (.invalid_argument ("Invalid hex character found: " ++ String.mk [a, b])) := by
  intro l
  induction l using pair_induction with
  | h0 => intro _ h; simp at h
  | h1 a => intro h; simp at h
  | h2 a b l ih =>
    intro hlen hbad
    by_cases hab : isxdigit a = true ∧ isxdigit b = true
    · obtain ⟨ha, hb⟩ := hab
      have hl : l.length % 2 = 0 := by
        simp only [List.length_cons] at hlen; omega
      have hbad2 : ∃ c ∈ l, isxdigit c = false := by
        obtain ⟨c, hc, hcx⟩ := hbad
        simp only [List.mem_cons] at hc
        rcases hc with rfl | rfl | hc
        · rw [ha] at hcx; cases hcx
        · rw [hb] at hcx; cases hcx
        · exact ⟨c, hc, hcx⟩
      obtain ⟨pre, post, x, y, hsplit, hpre, hprehex, hxy, herr⟩ := ih hl hbad2
      refine ⟨a :: b :: pre, post, x, y, by simp [hsplit], ?_, ?_, hxy, ?_⟩
      · simp only [List.length_cons]; omega
      · intro c hc
        simp only [List.mem_cons] at hc
        rcases hc with rfl | rfl | hc
        · exact ha
        · exact hb
        · exact hprehex c hc
      · intro bytes
        simp only [hex_to_bytes_loop, ha, hb, Bool.not_true, Bool.or_self, Bool.false_eq_true,
          if_false]
        exact herr _
    · refine ⟨[], l, a, b, by simp, by simp, by simp, hab, ?_⟩
      intro bytes
      have hcond : (!isxdigit a || !isxdigit b) = true := by
        cases h1 : isxdigit a <;> cases h2 : isxdigit b <;> simp_all
      simp only [hex_to_bytes_loop, hcond, if_true]

theorem pair_values_length : ∀ (l : List Char) (n : Nat), l.length = 2 * n →
    (pair_values l).length = n := by
  intro l
  induction l using pair_induction with
  | h0 => intro n h; simp at h; simp [pair_values, h]
  | h1 a => intro n h; simp at h; omega
  | h2 a b l ih =>
    intro n h
    simp only [List.length_cons] at h
    simp only [pair_values, List.length_cons]
    rw [ih (n - 1) (by omega)]
    omega

theorem pair_values_getElem? : ∀ (l : List Char) (k : Nat), 2 * k + 1 < l.length →
    (pair_values l)[k]? =
      some (16 * digitValue (l.getD (2 * k) '0') + digitValue (l.getD (2 * k + 1) '0')) := by
  intro l
  induction l using pair_induction with
  | h0 => intro k h; simp at h
  | h1 a => intro k h; simp at h
  | h2 a b l ih =>
    intro k h
    cases k with
    | zero => simp [pair_values]
    | succ k =>
      simp only [List.length_cons] at h
      have h2 : 2 * (k + 1) = (2 * k) + 1 + 1 := by ring
      have h3 : 2 * (k + 1) + 1 = (2 * k + 1) + 1 + 1 := by ring
      simp only [pair_values, List.getElem?_cons_succ, h2, h3, List.getD_cons_succ]
      exact ih k (by omega)

theorem hex_encode_pair_values : ∀ l : List Char, l.length % 2 = 0 →
    (∀ c ∈ l, isxdigit c = true) →
    (pair_values l).flatMap (fun b => [hex_digit_char (b / 16), hex_digit_char (b % 16)]) =
      l.map Char.toLower := by
  intro l
  induction l using pair_induction with
  | h0 => intro _ _; simp [pair_values]
  | h1 a => intro h; simp at h
  | h2 a b l ih =>
    intro hlen hall
    have ha : isxdigit a = true := hall a (by simp)
    have hb : isxdigit b = true := hall b (by simp)
    have hl : l.length % 2 = 0 := by
      simp only [List.length_cons] at hlen; omega
    have hrest : ∀ c ∈ l, isxdigit c = true := fun c hc => hall c (by simp [hc])
    have hda := digitValue_lt a ha
    have hdb := digitValue_lt b hb
    have e1 : (16 * digitValue a + digitValue b) / 16 = digitValue a := by omega
    have e2 : (16 * digitValue a + digitValue b) % 16 = digitValue b := by omega
    simp only [pair_values, List.flatMap_cons, e1, e2, hex_digit_char_digitValue a ha,
      hex_digit_char_digitValue b hb, List.map_cons, ih hl hrest]
    simp

theorem string_length_data (s : String) : s.length = s.data.length := rfl

theorem hex_to_bytes_valid (hex : String) (heven : hex.length % 2 = 0)
    (hhex : ∀ c ∈ hex.data, is_hex_digit c) :
    hex_to_bytes hex = .ok (pair_values hex.data) := by
  have hx : ∀ c ∈ hex.data, isxdigit c = true := fun c hc => (isxdigit_iff c).2 (hhex c hc)
  rw [string_length_data] at heven
  simp only [hex_to_bytes, string_length_data, heven, ne_eq, not_true_eq_false, if_false]
  rw [hex_to_bytes_loop_ok hex.data heven hx]
  simp

/-! ## The hex codec: claims C1 to C4 -/

/-- C1: for every even-length string made only of hexadecimal digits,
`hex_to_bytes` succeeds, and writing the bytes it returns back as two hex digits
per byte gives the original string with its letters in lower case, that is the
original string up to letter case. -/
theorem hex_to_bytes_round_trip (hex : String) (heven : hex.length % 2 = 0)
    (hhex : ∀ c ∈ hex.data, is_hex_digit c) :
    ∃ bytes, hex_to_bytes hex = .ok bytes ∧
      hex_encode bytes = String.mk (hex.data.map Char.toLower) := by
  have hx : ∀ c ∈ hex.data, isxdigit c = true := fun c hc => (isxdigit_iff c).2 (hhex c hc)
  refine ⟨pair_values hex.data, hex_to_bytes_valid hex heven hhex, ?_⟩
  rw [string_length_data] at heven
  simp only [hex_encode]
  rw [hex_encode_pair_values hex.data heven hx]

theorem hex_to_bytes_round_trip_witness :
    ∃ bytes, hex_to_bytes "fF01aB" = .ok bytes ∧ hex_encode bytes = "ff01ab" :=
  hex_to_bytes_round_trip "fF01aB" (by decide) (by decide)

theorem hex_to_bytes_odd (hex : String) (hodd : hex.length % 2 = 1) :
    hex_to_bytes hex = .error (.invalid_argument "Hex string length must be even.") := by
  simp [hex_to_bytes, hodd]

theorem hex_to_bytes_bad_pair (hex : String) (heven : hex.length % 2 = 0)
    (hbad : ∃ c ∈ hex.data, ¬ is_hex_digit c) :
    ∃ (pre post : List Char) (a b : Char),
      hex.data = pre ++ a :: b :: post ∧ pre.length % 2 = 0 ∧ (∀ c ∈ pre, is_hex_digit c) ∧
      ¬ (is_hex_digit a ∧ is_hex_digit b) ∧
      hex_to_bytes hex =
        .error (.invalid_argument ("Invalid hex character found: " ++ String.mk [a, b])) := by
  rw [string_length_data] at heven
  have hbad2 : ∃ c ∈ hex.data, isxdigit c = false := by
    obtain ⟨c, hc, hcx⟩ := hbad
    refine ⟨c, hc, ?_⟩
    cases h : isxdigit c
    · rfl
    · exact absurd ((isxdigit_iff c).1 h) hcx
  obtain ⟨pre, post, a, b, hsplit, hpre, hprehex, hab, herr⟩ :=
    hex_to_bytes_loop_error hex.data heven hbad2
  refine ⟨pre, post, a, b, hsplit, hpre, fun c hc => (isxdigit_iff c).1 (hprehex c hc), ?_, ?_⟩
  · rw [← isxdigit_iff a, ← isxdigit_iff b]; exact hab
  · simp only [hex_to_bytes, string_length_data, heven, ne_eq, not_true_eq_false, if_false]
    exact herr []

/-- C2: `hex_to_bytes` fails on every odd-length input and on every input with a
character that is not a hexadecimal digit; in all, it succeeds if and only if
the length is even and every character is in `0-9a-fA-F`. -/
theorem hex_to_bytes_succeeds_iff (hex : String) :
    (hex.length % 2 = 1 → ∃ e, hex_to_bytes hex = .error e) ∧
    ((∃ c ∈ hex.data, ¬ is_hex_digit c) → ∃ e, hex_to_bytes hex = .error e) ∧
    ((∃ bytes, hex_to_bytes hex = .ok bytes) ↔
      (hex.length % 2 = 0 ∧ ∀ c ∈ hex.data, is_hex_digit c)) := by
  have hfail : (∃ c ∈ hex.data, ¬ is_hex_digit c) → ∃ e, hex_to_bytes hex = .error e := by
    intro hbad
    rcases Nat.mod_two_eq_zero_or_one hex.length with heven | hodd
    · obtain ⟨_, _, a, b, _, _, _, _, herr⟩ := hex_to_bytes_bad_pair hex heven hbad
      exact ⟨_, herr⟩
    · exact ⟨_, hex_to_bytes_odd hex hodd⟩
  refine ⟨fun hodd => ⟨_, hex_to_bytes_odd hex hodd⟩, hfail, ?_, ?_⟩
  · rintro ⟨bytes, hok⟩
    constructor
    · rcases Nat.mod_two_eq_zero_or_one hex.length with heven | hodd
      · exact heven
      · rw [hex_to_bytes_odd hex hodd] at hok; cases hok
    · intro c hc
      by_contra hcx
      obtain ⟨e, herr⟩ := hfail ⟨c, hc, hcx⟩
      rw [herr] at hok; cases hok
  · rintro ⟨heven, hall⟩
    exact ⟨_, hex_to_bytes_valid hex heven hall⟩

theorem hex_to_bytes_succeeds_iff_witness :
    (∃ e, hex_to_bytes "abc" = .error e) ∧ (∃ e, hex_to_bytes "0g" = .error e) ∧
    (∃ bytes, hex_to_bytes "ff01" = .ok bytes) :=
  ⟨(hex_to_bytes_succeeds_iff "abc").1 (by decide),
   (hex_to_bytes_succeeds_iff "0g").2.1 ⟨'g', by decide, by decide⟩,
   (hex_to_bytes_succeeds_iff "ff01").2.2.2 ⟨by decide, by decide⟩⟩

/-- C3: a failing `hex_to_bytes` returns an error and no bytes, and the error
names the cause. On an odd length it is the odd-length error, whatever the
characters are. On an even length with a character that is not a hexadecimal
digit, the string splits as `pre ++ a :: b :: post` with `pre` of even length and
all hexadecimal, `a b` a pair with a character that is not hexadecimal, that is
the pair at the smallest even offset holding such a character, and the message
is `Invalid hex character found: ` followed by the two characters `a b`. -/
theorem hex_to_bytes_error_cause (hex : String) :
    (hex.length % 2 = 1 →
      hex_to_bytes hex = .error (.invalid_argument "Hex string length must be even.")) ∧
    (hex.length % 2 = 0 → (∃ c ∈ hex.data, ¬ is_hex_digit c) →
      ∃ (pre post : List Char) (a b : Char),
        hex.data = pre ++ a :: b :: post ∧ pre.length % 2 = 0 ∧
        (∀ c ∈ pre, is_hex_digit c) ∧ ¬ (is_hex_digit a ∧ is_hex_digit b) ∧
        hex_to_bytes hex =
          .error (.invalid_argument ("Invalid hex character found: " ++ String.mk [a, b]))) ∧
    (∀ e, hex_to_bytes hex = .error e → ∀ bytes, hex_to_bytes hex ≠ .ok bytes) := by
  refine ⟨hex_to_bytes_odd hex, hex_to_bytes_bad_pair hex, ?_⟩
  intro e he bytes hok
  rw [he] at hok
  cases hok

theorem hex_to_bytes_error_cause_witness :
    hex_to_bytes "0g1" = .error (.invalid_argument "Hex string length must be even.") ∧
    (∃ (pre post : List Char) (a b : Char),
        "ab0g1z".data = pre ++ a :: b :: post ∧ pre.length % 2 = 0 ∧
        (∀ c ∈ pre, is_hex_digit c) ∧ ¬ (is_hex_digit a ∧ is_hex_digit b) ∧
        hex_to_bytes "ab0g1z" =
          .error (.invalid_argument ("Invalid hex character found: " ++ String.mk [a, b]))) ∧
    (∀ bytes, hex_to_bytes "0g" ≠ .ok bytes) :=
  ⟨(hex_to_bytes_error_cause "0g1").1 (by decide),
   (hex_to_bytes_error_cause "ab0g1z").2.1 (by decide) ⟨'g', by decide, by decide⟩,
   (hex_to_bytes_error_cause "0g").2.2 _ (by decide : hex_to_bytes "0g" = .error
     (.invalid_argument "Invalid hex character found: 0g"))⟩

/-- C4: for every valid hex string of length `2n`, `hex_to_bytes` returns exactly
`n` bytes, and for every `k < n` byte `k` is `16 * digitValue(s[2k]) +
digitValue(s[2k+1])`: the bytes come in input order, `"ff01"` giving `0xff, 0x01`. -/
theorem hex_to_bytes_bytes (hex : String) (n : Nat) (hlen : hex.length = 2 * n)
    (hhex : ∀ c ∈ hex.data, is_hex_digit c) :
    hex_to_bytes "ff01" = .ok [0xff, 0x01] ∧
    ∃ bytes, hex_to_bytes hex = .ok bytes ∧ bytes.length = n ∧
      ∀ k < n, bytes[k]? =
        some (16 * digitValue (hex.data.getD (2 * k) '0') +
          digitValue (hex.data.getD (2 * k + 1) '0')) := by
  have heven : hex.length % 2 = 0 := by omega
  rw [string_length_data] at hlen
  refine ⟨by decide, pair_values hex.data, hex_to_bytes_valid hex heven hhex,
    pair_values_length hex.data n hlen, ?_⟩
  · intro k hk
    exact pair_values_getElem? hex.data k (by omega)

theorem hex_to_bytes_bytes_witness :
    hex_to_bytes "ff01" = .ok [0xff, 0x01] ∧
    ∃ bytes, hex_to_bytes "1a2B3c" = .ok bytes ∧ bytes.length = 3 ∧
      ∀ k < 3, bytes[k]? =
        some (16 * digitValue ("1a2B3c".data.getD (2 * k) '0') +
          digitValue ("1a2B3c".data.getD (2 * k + 1) '0')) :=
  hex_to_bytes_bytes "1a2B3c" 3 (by decide) (by decide)

/-! ## The cipher model against the published test vectors -/

/-- The example of FIPS 197, appendix C.1: key `000102...0f`, block
`00112233...ff`. -/
theorem Cipher_fips197_example :
    Cipher (KeyExpansion (List.range 16)) ((List.range 16).map (fun i => 17 * i)) =
      [0x69, 0xc4, 0xe0, 0xd8, 0x6a, 0x7b, 0x04, 0x30,
       0xd8, 0xcd, 0xb7, 0x80, 0x70, 0xb4, 0xc5, 0x5a] := by
  decide!

/-- The first block of the example of SP 800-38A, F.5.1 (CTR-AES128): key
`2b7e151628aed2a6abf7158809cf4f3c`, counter block `f0f1...ff`, plaintext
`6bc1bee22e409f96e93d7e117393172a`. -/
theorem ctr128_sp800_38a_example :
    (ctr128_encrypt
      { ks := KeyExpansion [0x2b, 0x7e, 0x15, 0x16, 0x28, 0xae, 0xd2, 0xa6,
                            0xab, 0xf7, 0x15, 0x88, 0x09, 0xcf, 0x4f, 0x3c],
        ivec := (List.range 16).map (fun i => 0xf0 + i),
        ecount_buf := List.replicate 16 0, num := 0 }
      [0x6b, 0xc1, 0xbe, 0xe2, 0x2e, 0x40, 0x9f, 0x96,
       0xe9, 0x3d, 0x7e, 0x11, 0x73, 0x93, 0x17, 0x2a]).2 =
      [0x87, 0x4d, 0x61, 0x91, 0xb6, 0x20, 0xe3, 0x26,
       0x1b, 0xef, 0x68, 0x64, 0x99, 0x0d, 0xb6, 0xce] := by
  decide!

/-! ## Lemmas on `aes_decrypt` -/

theorem ctr128_encrypt_length : ∀ (input : List Nat) (ctx : ctr_ctx),
    (ctr128_encrypt ctx input).2.length = input.length := by
  intro input
  induction input with
  | nil => intro ctx; simp [ctr128_encrypt]
  | cons b rest ih => intro ctx; simp [ctr128_encrypt, ih]

theorem resize_length (v : List Nat) (n : Nat) : (resize v n).length = n := by
  simp only [resize, List.length_append, List.length_take, List.length_replicate]
  omega

theorem write_at_zero_full (buf out : List Nat) (h : buf.length = out.length) :
    write_at buf 0 out = out := by
  simp [write_at, h]

theorem write_at_nil (buf : List Nat) (off : Nat) : write_at buf off [] = buf := by
  simp [write_at]

theorem resize_self (v : List Nat) (n : Nat) (h : v.length = n) : resize v n = v := by
  simp [resize, h]

theorem aes_decrypt_libcrypto (key ciphertext plaintext : List Nat) (hkey : key.length = 16) :
    aes_decrypt libcrypto key ciphertext plaintext =
      (.ok (),
        (ctr128_encrypt
          { ks := KeyExpansion key, ivec := List.replicate 16 0,
            ecount_buf := List.replicate 16 0, num := 0 } ciphertext).2) := by
  have hlen := ctr128_encrypt_length ciphertext
    { ks := KeyExpansion key, ivec := List.replicate 16 0,
      ecount_buf := List.replicate 16 0, num := 0 }
  simp only [aes_decrypt, hkey, ne_eq, not_true_eq_false, if_false, libcrypto, List.take_length,
    write_at_nil, Nat.add_zero, List.length_nil, List.take_replicate, Nat.min_self]
  rw [write_at_zero_full _ _ (by rw [resize_length, hlen]), resize_self _ _ rfl]

/-! ## The cipher engine: claims C5 and C6 -/

/-- C5: for every key whose length is not 16 bytes and every ciphertext,
`aes_decrypt` fails with the invalid-key-size error and leaves the caller's
plaintext vector exactly as it was; this holds whatever the library does and
whatever the ciphertext is, so the ciphertext is not processed. -/
theorem aes_decrypt_invalid_key_size (lib : OpenSSL) (key ciphertext plaintext : List Nat)
    (hkey : key.length ≠ 16) :
    aes_decrypt lib key ciphertext plaintext =
      (.error (.invalid_argument "AES-128 key must be 16 bytes."), plaintext) ∧
    ∀ (lib2 : OpenSSL) (ciphertext2 : List Nat),
      aes_decrypt lib2 key ciphertext2 plaintext = aes_decrypt lib key ciphertext plaintext := by
  have h : ∀ (l : OpenSSL) (c : List Nat), aes_decrypt l key c plaintext =
      (.error (.invalid_argument "AES-128 key must be 16 bytes."), plaintext) := by
    intro l c
    simp [aes_decrypt, hkey]
  exact ⟨h lib ciphertext, fun l c => by rw [h l c, h lib ciphertext]⟩

theorem aes_decrypt_invalid_key_size_witness :
    aes_decrypt libcrypto [1, 2, 3] [4, 5] [6, 7, 8] =
      (.error (.invalid_argument "AES-128 key must be 16 bytes."), [6, 7, 8]) ∧
    ∀ (lib2 : OpenSSL) (ciphertext2 : List Nat),
      aes_decrypt lib2 [1, 2, 3] ciphertext2 [6, 7, 8] =
        aes_decrypt libcrypto [1, 2, 3] [4, 5] [6, 7, 8] :=
  aes_decrypt_invalid_key_size libcrypto [1, 2, 3] [4, 5] [6, 7, 8] (by decide)

/-- C6: for every 16-byte key and every ciphertext of any length, the empty one
and those whose length is not a multiple of 16 among them, `aes_decrypt`
succeeds, whatever the plaintext vector held before, and the plaintext it leaves
has exactly the length of the ciphertext. -/
theorem aes_decrypt_same_length (key ciphertext plaintext : List Nat)
    (hkey : key.length = 16) :
    ∃ decrypted, aes_decrypt libcrypto key ciphertext plaintext = (.ok (), decrypted) ∧
      decrypted.length = ciphertext.length := by
  exact ⟨_, aes_decrypt_libcrypto key ciphertext plaintext hkey, ctr128_encrypt_length _ _⟩

theorem aes_decrypt_same_length_witness :
    ∃ decrypted, aes_decrypt libcrypto (List.replicate 16 0) [1, 2, 3] [9] = (.ok (), decrypted) ∧
      decrypted.length = [1, 2, 3].length :=
  aes_decrypt_same_length (List.replicate 16 0) [1, 2, 3] [9] (by decide)

/-! ## Lemmas on `std::map` and `parse_payload` -/

theorem char_toNat_inj (a b : Char) (h : a.toNat = b.toNat) : a = b := by
  rw [← Char.ofNat_toNat a, ← Char.ofNat_toNat b, h]

theorem string_lt_irrefl : ∀ a : List Char, string_lt a a = false := by
  intro a
  induction a with
  | nil => rfl
  | cons c cs ih => simp [string_lt, ih]

theorem string_lt_trichotomy : ∀ a b : List Char,
    string_lt a b = false → string_lt b a = false → a = b := by
  intro a
  induction a with
  | nil =>
    intro b h1 h2
    cases b with
    | nil => rfl
    | cons d ds => simp [string_lt] at h1
  | cons c cs ih =>
    intro b h1 h2
    cases b with
    | nil => simp [string_lt] at h2
    | cons d ds =>
      simp only [string_lt] at h1 h2
      by_cases hcd : c.toNat < d.toNat
      · simp [hcd] at h1
      · by_cases hdc : d.toNat < c.toNat
        · simp [hdc] at h2
        · simp only [hcd, hdc, if_false] at h1 h2
          have hc : c = d := char_toNat_inj c d (by omega)
          rw [hc, ih ds h1 h2]

theorem string_data_inj (a b : String) (h : a.data = b.data) : a = b := by
  cases a; cases b; simp_all

theorem map_assign_fresh_perm : ∀ (m : List (String × double)) (key : String) (value : double),
    key ∉ m.map Prod.fst → (map_assign m key value).Perm ((key, value) :: m) := by
  intro m
  induction m with
  | nil => intro key value _; simp [map_assign]
  | cons e rest ih =>
    intro key value hfresh
    obtain ⟨k, v⟩ := e
    simp only [List.map_cons, List.mem_cons, not_or] at hfresh
    simp only [map_assign]
    by_cases h1 : string_lt key.data k.data = true
    · simp [h1]
    · by_cases h2 : string_lt k.data key.data = true
      · simp only [h1, h2, if_true, if_false]
        exact ((ih key value hfresh.2).cons (k, v)).trans (List.Perm.swap _ _ _)
      · exfalso
        apply hfresh.1
        apply string_data_inj
        exact string_lt_trichotomy _ _ (by simpa using h1) (by simpa using h2)

theorem map_find_assign : ∀ (m : List (String × double)) (key : String) (value : double)
    (k2 : String),
    map_find (map_assign m key value) k2 = if key = k2 then some value else map_find m k2 := by
  intro m
  induction m with
  | nil => intro key value k2; simp [map_assign, map_find]
  | cons e rest ih =>
    intro key value k2
    obtain ⟨k, v⟩ := e
    simp only [map_assign]
    by_cases h1 : string_lt key.data k.data = true
    · simp [h1, map_find]
    · by_cases h2 : string_lt k.data key.data = true
      · simp only [h1, h2, if_true, if_false, map_find, ih]
        by_cases hk : k = k2
        · have hne : key ≠ k2 := by
            intro hkey
            rw [hk, hkey, string_lt_irrefl] at h2
            cases h2
          simp [hk, hne]
        · simp [hk]
      · have hkk : key = k := by
          apply string_data_inj
          exact string_lt_trichotomy _ _ (by simpa using h1) (by simpa using h2)
        subst hkk
        simp only [string_lt_irrefl, Bool.false_eq_true, if_false, map_find]
        by_cases hk : key = k2 <;> simp [hk]

theorem reading_key_inj : ∀ i < 15, ∀ j < 15, reading_key i = reading_key j → i = j := by
  decide

theorem readings_upto_succ (data : List Nat) (j : Nat) :
    readings_upto data (j + 1) =
      map_assign (readings_upto data j) (reading_key j) (reading_value (data.getD j 0)) := by
  simp [readings_upto, List.range_succ, List.foldl_append]

theorem readings_upto_perm (data : List Nat) : ∀ j ≤ 15,
    (readings_upto data j).Perm
      ((List.range j).map (fun i => (reading_key i, reading_value (data.getD i 0)))) := by
  intro j
  induction j with
  | zero => intro _; simp [readings_upto]
  | succ j ih =>
    intro hj
    have ihj := ih (by omega)
    have hfresh : reading_key j ∉ (readings_upto data j).map Prod.fst := by
      intro hmem
      have hmem2 := (ihj.map Prod.fst).mem_iff.1 hmem
      simp only [List.map_map, List.mem_map, List.mem_range, Function.comp] at hmem2
      obtain ⟨i, hi, hik⟩ := hmem2
      have := reading_key_inj i (by omega) j (by omega) hik
      omega
    rw [readings_upto_succ]
    refine (map_assign_fresh_perm _ _ _ hfresh).trans ?_
    rw [List.range_succ, List.map_append, List.map_singleton]
    exact ((ihj.cons _).trans (List.perm_append_singleton _ _).symm)

theorem parse_payload_eq (data : List Nat) :
    parse_payload data = readings_upto data (min data.length 15) := rfl

theorem readings_upto_find (data : List Nat) : ∀ j ≤ 15, ∀ i < j,
    map_find (readings_upto data j) (reading_key i) = some (reading_value (data.getD i 0)) := by
  intro j
  induction j with
  | zero => intro _ i hi; omega
  | succ j ih =>
    intro hj i hi
    rw [readings_upto_succ, map_find_assign]
    by_cases hij : i = j
    · simp [hij]
    · have hne : reading_key j ≠ reading_key i := by
        intro h
        exact hij (reading_key_inj i (by omega) j (by omega) h.symm)
      simp only [hne, if_false]
      exact ih (by omega) i (by omega)

/-! ## The reading extractor: claims C7 and C8 -/

/-- C7: for every byte buffer of length `n`, `parse_payload` returns a map with
exactly `min(n, 15)` entries: none for the empty buffer, 15 for a buffer of 15
bytes or more, `n` for a shorter one; the keys of the entries are pairwise
different, no two positions giving the same key. -/
theorem parse_payload_size (data : List Nat) :
    (parse_payload data).length = min data.length 15 ∧
    parse_payload [] = [] ∧
    (15 ≤ data.length → (parse_payload data).length = 15) ∧
    (data.length < 15 → (parse_payload data).length = data.length) ∧
    ((parse_payload data).map Prod.fst).Nodup ∧
    (∀ i j, i < min data.length 15 → j < min data.length 15 →
      "consumption_at_history_" ++ toString (i + 1) ++ "_m3" =
        "consumption_at_history_" ++ toString (j + 1) ++ "_m3" → i = j) := by
  have hperm := readings_upto_perm data (min data.length 15) (by omega)
  rw [← parse_payload_eq] at hperm
  have hlen : (parse_payload data).length = min data.length 15 := by
    rw [hperm.length_eq]; simp
  refine ⟨hlen, rfl, ?_, ?_, ?_, ?_⟩
  · intro h; rw [hlen]; omega
  · intro h; rw [hlen]; omega
  · rw [(hperm.map Prod.fst).nodup_iff, List.map_map]
    refine List.Nodup.map_on ?_ (List.nodup_range _)
    intro i hi j hj hij
    simp only [List.mem_range] at hi hj
    exact reading_key_inj i (by omega) j (by omega) hij
  · intro i j hi hj hij
    exact reading_key_inj i (by omega) j (by omega) hij

theorem parse_payload_size_witness :
    (parse_payload [1, 2, 3]).length = [1, 2, 3].length :=
  (parse_payload_size [1, 2, 3]).2.2.2.1 (by decide)

/-- C8: for every byte buffer and every 0-based offset `i < min(length, 15)`, the
map `parse_payload` returns has under the key `consumption_at_history_<i+1>_m3`
(`i + 1` in decimal) the value of byte `i` multiplied by `0.01`, and the map has
no other keys. -/
theorem parse_payload_entries (data : List Nat) :
    (∀ i b, i < min data.length 15 → data[i]? = some b →
      map_find (parse_payload data) ("consumption_at_history_" ++ toString (i + 1) ++ "_m3") =
        some (double_mul (double_of_int b) double_0_01)) ∧
    (∀ k ∈ (parse_payload data).map Prod.fst, ∃ i, i < min data.length 15 ∧
      k = "consumption_at_history_" ++ toString (i + 1) ++ "_m3") := by
  constructor
  · intro i b hi hb
    have h := readings_upto_find data (min data.length 15) (by omega) i hi
    have hget : data.getD i 0 = b := by
      simp [List.getD, hb]
    rw [hget] at h
    exact h
  · intro k hk
    have hperm := readings_upto_perm data (min data.length 15) (by omega)
    rw [← parse_payload_eq] at hperm
    have hk2 := (hperm.map Prod.fst).mem_iff.1 hk
    simp only [List.map_map, List.mem_map, List.mem_range, Function.comp] at hk2
    obtain ⟨i, hi, hik⟩ := hk2
    exact ⟨i, hi, hik.symm⟩

theorem parse_payload_entries_witness :
    map_find (parse_payload [7, 102]) "consumption_at_history_2_m3" =
      some (double_mul (double_of_int 102) double_0_01) :=
  (parse_payload_entries [7, 102]).1 1 102 (by decide) (by decide)

/-! ## The end-to-end scenario: claim C9 -/

theorem zero_key_bytes :
    hex_to_bytes "00000000000000000000000000000000" = .ok (List.replicate 16 0) := by
  decide!

theorem zero_telegram_bytes : hex_to_bytes "00" = .ok [0] := by decide

theorem zero_scenario_plaintext :
    aes_decrypt libcrypto (List.replicate 16 0) [0] [] = (.ok (), [0x66]) := by
  decide!

theorem zero_scenario_readings :
    parse_payload [0x66] =
      [("consumption_at_history_1_m3", double_mul (double_of_int 0x66) double_0_01)] := by
  decide!

theorem zero_scenario_value :
    double_mul (double_of_int 0x66) double_0_01 = ⟨4593671619917906, -52⟩ := by
  decide!

/-- C9, as the specification states it, does not hold: with the key
`00000000000000000000000000000000` and the telegram `00`, decoding, decrypting
and `parse_payload` do not end in the single entry `consumption_at_history_1_m3`
with value `0`. -/
theorem zero_scenario_value_zero_refuted :
    ¬ ∃ key telegram decrypted,
      hex_to_bytes "00000000000000000000000000000000" = .ok key ∧
      hex_to_bytes "00" = .ok telegram ∧
      aes_decrypt libcrypto key telegram [] = (.ok (), decrypted) ∧
      parse_payload decrypted = [("consumption_at_history_1_m3", double_of_int 0)] := by
  rintro ⟨key, telegram, decrypted, hk, ht, hd, hp⟩
  rw [zero_key_bytes] at hk
  rw [zero_telegram_bytes] at ht
  cases hk
  cases ht
  rw [zero_scenario_plaintext] at hd
  cases hd
  rw [zero_scenario_readings, zero_scenario_value] at hp
  revert hp
  decide

/-- C9, amended: with the key `00000000000000000000000000000000` (16 zero bytes)
and the telegram `00` (one zero byte), AES-128-CTR decryption with the zero IV
gives the one plaintext byte `0x66`, and `parse_payload` of it is exactly one
entry, named `consumption_at_history_1_m3`, whose value is `102 * 0.01`, which
is not `0` and is printed as `1.02`. -/
theorem zero_scenario :
    hex_to_bytes "00000000000000000000000000000000" = .ok (List.replicate 16 0) ∧
    hex_to_bytes "00" = .ok [0] ∧
    aes_decrypt libcrypto (List.replicate 16 0) [0] [] = (.ok (), [0x66]) ∧
    parse_payload [0x66] =
      [("consumption_at_history_1_m3", double_mul (double_of_int 102) double_0_01)] ∧
    double_mul (double_of_int 102) double_0_01 ≠ double_of_int 0 ∧
    ostream_double (double_mul (double_of_int 102) double_0_01) = "1.02" := by
  refine ⟨zero_key_bytes, zero_telegram_bytes, zero_scenario_plaintext, zero_scenario_readings,
    ?_, ?_⟩
  · rw [zero_scenario_value]; decide
  · rw [zero_scenario_value]; decide!

/-! ## The exit status: claim C10 -/

theorem hex_to_bytes_invalid (hex : String) (h : ¬ is_hex_string hex) :
    ∃ e, hex_to_bytes hex = .error e := by
  rcases Nat.mod_two_eq_zero_or_one hex.length with heven | hodd
  · have hbad : ∃ c ∈ hex.data, ¬ is_hex_digit c := by
      by_contra hall
      apply h
      refine ⟨heven, fun c hc => ?_⟩
      by_contra hcx
      exact hall ⟨c, hc, hcx⟩
    obtain ⟨_, _, a, b, _, _, _, _, herr⟩ := hex_to_bytes_bad_pair hex heven hbad
    exact ⟨_, herr⟩
  · exact ⟨_, hex_to_bytes_odd hex hodd⟩

theorem pair_values_length_half (hex : String) (heven : hex.length % 2 = 0) :
    (pair_values hex.data).length = hex.length / 2 :=
  pair_values_length hex.data (hex.length / 2) (by rw [← string_length_data]; omega)

theorem main_try_ok_iff (clock : Option String) (key_hex telegram_hex : String) :
    (∃ report, main_try libcrypto clock key_hex telegram_hex = .ok report) ↔
      (is_hex_string key_hex ∧ is_hex_string telegram_hex ∧ key_hex.length = 32) := by
  by_cases hk : is_hex_string key_hex
  · by_cases ht : is_hex_string telegram_hex
    · have hkb := hex_to_bytes_valid key_hex hk.1 hk.2
      have htb := hex_to_bytes_valid telegram_hex ht.1 ht.2
      have hklen := pair_values_length_half key_hex hk.1
      by_cases h32 : key_hex.length = 32
      · have h16 : (pair_values key_hex.data).length = 16 := by omega
        simp only [main_try, hkb, htb, aes_decrypt_libcrypto _ _ _ h16]
        simp [hk, ht, h32]
      · have h16 : (pair_values key_hex.data).length ≠ 16 := by
          have := hk.1
          omega
        simp only [main_try, hkb, htb]
        simp [aes_decrypt, h16, h32]
    · obtain ⟨e, he⟩ := hex_to_bytes_invalid telegram_hex ht
      have hkb := hex_to_bytes_valid key_hex hk.1 hk.2
      simp [main_try, hkb, he, ht]
  · obtain ⟨e, he⟩ := hex_to_bytes_invalid key_hex hk
    simp [main_try, he, hk]

theorem main_status_of_three (clock : Option String) (prog key_hex telegram_hex : String) :
    (main libcrypto clock [prog, key_hex, telegram_hex]).status =
      (match main_try libcrypto clock key_hex telegram_hex with
        | .ok _ => 0
        | .error _ => 1) := by
  simp only [main, List.length_cons, List.length_nil, List.getD_cons_succ, List.getD_cons_zero]
  cases main_try libcrypto clock key_hex telegram_hex <;> simp

theorem length_three {α : Type} (l : List α) (h : l.length = 3) : ∃ a b c, l = [a, b, c] := by
  match l, h with
  | [a, b, c], _ => exact ⟨a, b, c, rfl⟩

/-- C10: for every argument vector the exit status is `0` if and only if there
are exactly two arguments after the program name, both are even-length strings
of hexadecimal digits, and the key argument has 32 digits, that is decodes to
exactly 16 bytes; in every other case the exit status is `1`. -/
theorem main_exit_status (clock : Option String) (argv : List String) :
    ((main libcrypto clock argv).status = 0 ↔
      ∃ prog key_hex telegram_hex, argv = [prog, key_hex, telegram_hex] ∧
        is_hex_string key_hex ∧ is_hex_string telegram_hex ∧ key_hex.length = 32) ∧
    ((main libcrypto clock argv).status ≠ 0 → (main libcrypto clock argv).status = 1) ∧
    (∀ key_hex, is_hex_string key_hex →
      (key_hex.length = 32 ↔
        ∃ key_bytes, hex_to_bytes key_hex = .ok key_bytes ∧ key_bytes.length = 16)) := by
  refine ⟨?_, ?_, ?_⟩
  · by_cases h3 : argv.length = 3
    · obtain ⟨prog, key_hex, telegram_hex, rfl⟩ := length_three argv h3
      rw [main_status_of_three]
      have hiff := main_try_ok_iff clock key_hex telegram_hex
      constructor
      · intro hs
        refine ⟨prog, key_hex, telegram_hex, rfl, hiff.1 ?_⟩
        cases hm : main_try libcrypto clock key_hex telegram_hex with
        | ok report => exact ⟨report, rfl⟩
        | error e => rw [hm] at hs; simp at hs
      · rintro ⟨p, k, t, heq, hvalid⟩
        simp only [List.cons.injEq, and_true] at heq
        obtain ⟨_, rfl, rfl⟩ := heq
        obtain ⟨report, hr⟩ := hiff.2 hvalid
        rw [hr]
    · constructor
      · intro hs
        simp [main, h3] at hs
      · rintro ⟨p, k, t, rfl, _⟩
        simp at h3
  · intro _
    by_cases h3 : argv.length = 3
    · obtain ⟨prog, key_hex, telegram_hex, rfl⟩ := length_three argv h3
      rw [main_status_of_three] at *
      cases hm : main_try libcrypto clock key_hex telegram_hex with
      | ok report => simp_all
      | error e => rfl
    · simp [main, h3]
  · intro key_hex hk
    have hkb := hex_to_bytes_valid key_hex hk.1 hk.2
    have hklen := pair_values_length_half key_hex hk.1
    have heven := hk.1
    constructor
    · intro h32
      exact ⟨_, hkb, by omega⟩
    · rintro ⟨key_bytes, hok, h16⟩
      rw [hkb] at hok
      cases hok
      omega

theorem main_exit_status_witness :
    (main libcrypto none ["wmbus", "000102030405060708090a0b0c0d0e0f", "a1B2"]).status = 0 ∧
    (main libcrypto none ["wmbus", "0001", "a1B2"]).status = 1 :=
  ⟨(main_exit_status none ["wmbus", "000102030405060708090a0b0c0d0e0f", "a1B2"]).1.2
      ⟨_, _, _, rfl, by decide, by decide, by decide⟩,
   (main_exit_status none ["wmbus", "0001", "a1B2"]).2.1 (by
      intro h
      obtain ⟨_, _, _, heq, _, _, h32⟩ :=
        (main_exit_status none ["wmbus", "0001", "a1B2"]).1.1 h
      simp only [List.cons.injEq, and_true] at heq
      obtain ⟨_, rfl, _⟩ := heq
      revert h32
      decide)⟩

/-! ## Lemmas on `main` -/

theorem main_of_three_ok (lib : OpenSSL) (clock : Option String)
    (prog key_hex telegram_hex report : String)
    (h : main_try lib clock key_hex telegram_hex = .ok report) :
    main lib clock [prog, key_hex, telegram_hex] = { cout := report, cerr := "", status := 0 } := by
  simp [main, h]

theorem main_of_three_error (lib : OpenSSL) (clock : Option String)
    (prog key_hex telegram_hex : String) (e : exception)
    (h : main_try lib clock key_hex telegram_hex = .error e) :
    main lib clock [prog, key_hex, telegram_hex] =
      { cout := "", cerr := "Error: " ++ e.what ++ "\n", status := 1 } := by
  simp [main, h]

theorem main_try_error_key (lib : OpenSSL) (clock : Option String) (key_hex telegram_hex : String)
    (e : exception) (hk : hex_to_bytes key_hex = .error e) :
    main_try lib clock key_hex telegram_hex = .error e := by
  simp [main_try, hk]

theorem main_try_error_telegram (lib : OpenSSL) (clock : Option String)
    (key_hex telegram_hex : String) (key_bytes : List Nat) (e : exception)
    (hk : hex_to_bytes key_hex = .ok key_bytes) (ht : hex_to_bytes telegram_hex = .error e) :
    main_try lib clock key_hex telegram_hex = .error e := by
  simp [main_try, hk, ht]

theorem main_try_key_size (lib : OpenSSL) (clock : Option String)
    (key_hex telegram_hex : String) (key_bytes telegram_bytes : List Nat)
    (hk : hex_to_bytes key_hex = .ok key_bytes) (ht : hex_to_bytes telegram_hex = .ok telegram_bytes)
    (hlen : key_bytes.length ≠ 16) :
    main_try lib clock key_hex telegram_hex =
      .error (.invalid_argument "AES-128 key must be 16 bytes.") := by
  simp [main_try, hk, ht, aes_decrypt, hlen]

theorem main_try_decrypt_error (lib : OpenSSL) (clock : Option String)
    (key_hex telegram_hex : String) (key_bytes telegram_bytes after : List Nat) (e : exception)
    (hk : hex_to_bytes key_hex = .ok key_bytes)
    (ht : hex_to_bytes telegram_hex = .ok telegram_bytes)
    (hd : aes_decrypt lib key_bytes telegram_bytes [] = (.error e, after)) :
    main_try lib clock key_hex telegram_hex = .error e := by
  simp [main_try, hk, ht, hd]

theorem main_try_decrypt_ok (lib : OpenSSL) (clock : Option String)
    (key_hex telegram_hex : String) (key_bytes telegram_bytes decrypted_bytes : List Nat)
    (hk : hex_to_bytes key_hex = .ok key_bytes)
    (ht : hex_to_bytes telegram_hex = .ok telegram_bytes)
    (hd : aes_decrypt lib key_bytes telegram_bytes [] = (.ok (), decrypted_bytes)) :
    main_try lib clock key_hex telegram_hex =
      .ok (print_json (parse_payload decrypted_bytes) (get_timestamp clock)) := by
  simp [main_try, hk, ht, hd]

theorem hex_to_bytes_cases (hex : String) :
    (is_hex_string hex ∧ hex_to_bytes hex = .ok (pair_values hex.data)) ∨
    (hex.length % 2 = 1 ∧
      hex_to_bytes hex = .error (.invalid_argument "Hex string length must be even.")) ∨
    (hex.length % 2 = 0 ∧ ∃ a b, a ∈ hex.data ∧ b ∈ hex.data ∧
      ¬ (is_hex_digit a ∧ is_hex_digit b) ∧
      hex_to_bytes hex =
        .error (.invalid_argument ("Invalid hex character found: " ++ String.mk [a, b]))) := by
  rcases Nat.mod_two_eq_zero_or_one hex.length with heven | hodd
  · by_cases hall : ∀ c ∈ hex.data, is_hex_digit c
    · exact Or.inl ⟨⟨heven, hall⟩, hex_to_bytes_valid hex heven hall⟩
    · have hbad : ∃ c ∈ hex.data, ¬ is_hex_digit c := by
        by_contra hno
        apply hall
        intro c hc
        by_contra hcx
        exact hno ⟨c, hc, hcx⟩
      obtain ⟨pre, post, a, b, hsplit, _, _, hab, herr⟩ := hex_to_bytes_bad_pair hex heven hbad
      refine Or.inr (Or.inr ⟨heven, a, b, ?_, ?_, hab, herr⟩)
      · rw [hsplit]; simp
      · rw [hsplit]; simp
  · exact Or.inr (Or.inl ⟨hodd, hex_to_bytes_odd hex hodd⟩)

theorem aes_decrypt_error_form (lib : OpenSSL) (key ciphertext plaintext after : List Nat)
    (e : exception) (h : aes_decrypt lib key ciphertext plaintext = (.error e, after)) :
    e = .invalid_argument "AES-128 key must be 16 bytes." ∨
    e = .runtime_error "Failed to create EVP_CIPHER_CTX" ∨
    e = .runtime_error "EVP_DecryptInit_ex failed" ∨
    e = .runtime_error "AES decryption failed" := by
  unfold aes_decrypt at h
  split at h
  · simp only [Prod.mk.injEq, Except.error.injEq] at h
    exact Or.inl h.1.symm
  · dsimp only at h
    split at h
    · simp only [Prod.mk.injEq, Except.error.injEq] at h
      exact Or.inr (Or.inl h.1.symm)
    · split at h
      · simp only [Prod.mk.injEq, Except.error.injEq] at h
        exact Or.inr (Or.inr (Or.inl h.1.symm))
      · split at h
        · simp only [Prod.mk.injEq, Except.error.injEq] at h
          exact Or.inr (Or.inr (Or.inr h.1.symm))
        · split at h
          · simp only [Prod.mk.injEq, Except.error.injEq] at h
            exact Or.inr (Or.inr (Or.inr h.1.symm))
          · simp at h

theorem main_try_cases (lib : OpenSSL) (clock : Option String) (key_hex telegram_hex : String) :
    (∃ e, hex_to_bytes key_hex = .error e ∧
      main_try lib clock key_hex telegram_hex = .error e) ∨
    (∃ key_bytes e, hex_to_bytes key_hex = .ok key_bytes ∧
      hex_to_bytes telegram_hex = .error e ∧
      main_try lib clock key_hex telegram_hex = .error e) ∨
    (∃ key_bytes telegram_bytes e after, hex_to_bytes key_hex = .ok key_bytes ∧
      hex_to_bytes telegram_hex = .ok telegram_bytes ∧
      aes_decrypt lib key_bytes telegram_bytes [] = (.error e, after) ∧
      main_try lib clock key_hex telegram_hex = .error e) ∨
    (∃ key_bytes telegram_bytes decrypted_bytes, hex_to_bytes key_hex = .ok key_bytes ∧
      hex_to_bytes telegram_hex = .ok telegram_bytes ∧
      aes_decrypt lib key_bytes telegram_bytes [] = (.ok (), decrypted_bytes) ∧
      main_try lib clock key_hex telegram_hex =
        .ok (print_json (parse_payload decrypted_bytes) (get_timestamp clock))) := by
  cases hk : hex_to_bytes key_hex with
  | error e => exact Or.inl ⟨e, rfl, main_try_error_key lib clock key_hex telegram_hex e hk⟩
  | ok key_bytes =>
    cases ht : hex_to_bytes telegram_hex with
    | error e =>
      exact Or.inr (Or.inl ⟨key_bytes, e, rfl, rfl,
        main_try_error_telegram lib clock key_hex telegram_hex key_bytes e hk ht⟩)
    | ok telegram_bytes =>
      rcases hd : aes_decrypt lib key_bytes telegram_bytes [] with ⟨res, after⟩
      cases res with
      | error e =>
        exact Or.inr (Or.inr (Or.inl ⟨key_bytes, telegram_bytes, e, after, rfl, rfl, hd,
          main_try_decrypt_error lib clock key_hex telegram_hex key_bytes telegram_bytes after e
            hk ht hd⟩))
      | ok u =>
        cases u
        exact Or.inr (Or.inr (Or.inr ⟨key_bytes, telegram_bytes, after, rfl, rfl, hd,
          main_try_decrypt_ok lib clock key_hex telegram_hex key_bytes telegram_bytes after
            hk ht hd⟩))

theorem string_append_data (a b : String) : (a ++ b).data = a.data ++ b.data := by
  cases a; cases b; rfl

theorem error_line_data (m : String) :
    ("Error: " ++ m ++ "\n").data = "Error: ".data ++ (m.data ++ ['\n']) := by
  rw [string_append_data, string_append_data, List.append_assoc]

theorem error_line_inj (m1 m2 : String) (h : "Error: " ++ m1 ++ "\n" = "Error: " ++ m2 ++ "\n") :
    m1 = m2 := by
  have hd := congrArg String.data h
  rw [error_line_data, error_line_data] at hd
  have h2 := List.append_cancel_left hd
  have h3 := List.append_cancel_right h2
  exact string_data_inj m1 m2 h3

theorem invalid_hex_message_head (a b : Char) :
    ("Invalid hex character found: " ++ String.mk [a, b]).data.head? = some 'I' := by
  rw [string_append_data]
  rfl

theorem invalid_hex_message_ne (a b : Char) (m : String) (hm : m.data.head? ≠ some 'I') :
    "Invalid hex character found: " ++ String.mk [a, b] ≠ m := by
  intro h
  apply hm
  rw [← h, invalid_hex_message_head]

theorem hex_to_bytes_ok_valid (hex : String) (bytes : List Nat)
    (h : hex_to_bytes hex = .ok bytes) : is_hex_string hex ∧ bytes = pair_values hex.data := by
  rcases hex_to_bytes_cases hex with ⟨hv, hok⟩ | ⟨_, herr⟩ | ⟨_, a, b, _, _, _, herr⟩
  · rw [hok] at h
    cases h
    exact ⟨hv, rfl⟩
  · rw [herr] at h; cases h
  · rw [herr] at h; cases h

theorem hex_to_bytes_error_what (hex : String) (e : exception)
    (h : hex_to_bytes hex = .error e) :
    ¬ is_hex_string hex ∧
    (e = .invalid_argument "Hex string length must be even." ∨
      ∃ a b, a ∈ hex.data ∧ b ∈ hex.data ∧ ¬ (is_hex_digit a ∧ is_hex_digit b) ∧
        e = .invalid_argument ("Invalid hex character found: " ++ String.mk [a, b])) := by
  rcases hex_to_bytes_cases hex with ⟨hv, hok⟩ | ⟨hodd, herr⟩ | ⟨_, a, b, ha, hb, hab, herr⟩
  · rw [hok] at h; cases h
  · rw [herr] at h
    cases h
    refine ⟨fun hv => ?_, Or.inl rfl⟩
    have := hv.1
    omega
  · rw [herr] at h
    cases h
    refine ⟨fun hv => hab ⟨hv.2 a ha, hv.2 b hb⟩, Or.inr ⟨a, b, ha, hb, hab, rfl⟩⟩

theorem aes_decrypt_runtime_of_16 (lib : OpenSSL) (key ciphertext plaintext after : List Nat)
    (e : exception) (hkey : key.length = 16)
    (h : aes_decrypt lib key ciphertext plaintext = (.error e, after)) :
    ∃ m, e = .runtime_error m := by
  unfold aes_decrypt at h
  simp only [hkey, ne_eq, not_true_eq_false, if_false] at h
  split at h
  · simp only [Prod.mk.injEq, Except.error.injEq] at h
    exact ⟨_, h.1.symm⟩
  · split at h
    · simp only [Prod.mk.injEq, Except.error.injEq] at h
      exact ⟨_, h.1.symm⟩
    · split at h
      · simp only [Prod.mk.injEq, Except.error.injEq] at h
        exact ⟨_, h.1.symm⟩
      · split at h
        · simp only [Prod.mk.injEq, Except.error.injEq] at h
          exact ⟨_, h.1.symm⟩
        · simp at h

/-! ## The streams on a failing run: claims C11, C12 and C13 -/

/-- C11: no partial report on a failing run. For every argument vector, when the
exit status is `1` nothing has been written to standard output; and whenever
something is written to standard output, both hex conversions and the
decryption have succeeded and what is written is the whole report of the
readings extracted. -/
theorem main_no_partial_report (lib : OpenSSL) (clock : Option String) (argv : List String) :
    ((main lib clock argv).status = 1 → (main lib clock argv).cout = "") ∧
    ((main lib clock argv).cout ≠ "" →
      ∃ prog key_hex telegram_hex key_bytes telegram_bytes decrypted_bytes,
        argv = [prog, key_hex, telegram_hex] ∧
        hex_to_bytes key_hex = .ok key_bytes ∧
        hex_to_bytes telegram_hex = .ok telegram_bytes ∧
        aes_decrypt lib key_bytes telegram_bytes [] = (.ok (), decrypted_bytes) ∧
        (main lib clock argv).cout =
          print_json (parse_payload decrypted_bytes) (get_timestamp clock) ∧
        (main lib clock argv).status = 0) := by
  by_cases h3 : argv.length = 3
  · obtain ⟨prog, key_hex, telegram_hex, rfl⟩ := length_three argv h3
    rcases main_try_cases lib clock key_hex telegram_hex with
      ⟨e, _, hm⟩ | ⟨_, e, _, _, hm⟩ | ⟨_, _, e, _, _, _, _, hm⟩ | ⟨kb, tb, dec, hk, ht, hd, hm⟩
    · rw [main_of_three_error lib clock prog key_hex telegram_hex e hm]
      simp
    · rw [main_of_three_error lib clock prog key_hex telegram_hex e hm]
      simp
    · rw [main_of_three_error lib clock prog key_hex telegram_hex e hm]
      simp
    · rw [main_of_three_ok lib clock prog key_hex telegram_hex _ hm]
      refine ⟨by simp, fun _ => ⟨prog, key_hex, telegram_hex, kb, tb, dec, rfl, hk, ht, hd, rfl, rfl⟩⟩
  · simp [main, h3]

theorem main_no_partial_report_witness :
    (main libcrypto none ["wmbus", "00", "0g"]).cout = "" :=
  (main_no_partial_report libcrypto none ["wmbus", "00", "0g"]).1 (by decide)

/-- C12: for every invocation whose number of arguments after the program name
is not two, the program writes the usage message to the error stream and nothing
to standard output and exits with status `1`; the run is the same whatever the
arguments are, valid hex or not, so no hex decoding enters it. -/
theorem main_usage (lib : OpenSSL) (clock : Option String) (prog : String) (args : List String)
    (h : args.length ≠ 2) :
    main lib clock (prog :: args) =
      { cout := "",
        cerr := "Usage: " ++ prog ++ " <AES-128 key HEX> <W-MBus telegram HEX>\n",
        status := 1 } ∧
    ∀ (lib2 : OpenSSL) (clock2 : Option String) (args2 : List String), args2.length ≠ 2 →
      main lib2 clock2 (prog :: args2) = main lib clock (prog :: args) := by
  have key : ∀ (l : OpenSSL) (c : Option String) (a : List String), a.length ≠ 2 →
      main l c (prog :: a) =
        { cout := "",
          cerr := "Usage: " ++ prog ++ " <AES-128 key HEX> <W-MBus telegram HEX>\n",
          status := 1 } := by
    intro l c a ha
    simp [main, ha]
  exact ⟨key lib clock args h, fun l c a ha => by rw [key l c a ha, key lib clock args h]⟩

theorem main_usage_witness :
    main libcrypto none ["wmbus", "zz"] =
      { cout := "",
        cerr := "Usage: wmbus <AES-128 key HEX> <W-MBus telegram HEX>\n",
        status := 1 } ∧
    ∀ (lib2 : OpenSSL) (clock2 : Option String) (args2 : List String), args2.length ≠ 2 →
      main lib2 clock2 ("wmbus" :: args2) = main libcrypto none ["wmbus", "zz"] :=
  main_usage libcrypto none "wmbus" ["zz"] (by decide)

/-- C13: for every key argument and every telegram argument with an odd number
of characters, the exit status is `1`, nothing is written to standard output,
and the message on the error stream is an invalid-encoding message, the
odd-length one or the invalid-hex-character one, and so is neither the key-size
message nor one of the decryption messages. -/
theorem main_odd_telegram (lib : OpenSSL) (clock : Option String)
    (prog key_hex telegram_hex : String) (hodd : telegram_hex.length % 2 = 1) :
    (main lib clock [prog, key_hex, telegram_hex]).status = 1 ∧
    (main lib clock [prog, key_hex, telegram_hex]).cout = "" ∧
    ((main lib clock [prog, key_hex, telegram_hex]).cerr =
        "Error: Hex string length must be even.\n" ∨
      ∃ a b, ¬ (is_hex_digit a ∧ is_hex_digit b) ∧
        (main lib clock [prog, key_hex, telegram_hex]).cerr =
          "Error: " ++ ("Invalid hex character found: " ++ String.mk [a, b]) ++ "\n") ∧
    (main lib clock [prog, key_hex, telegram_hex]).cerr ≠
      "Error: " ++ "AES-128 key must be 16 bytes." ++ "\n" ∧
    (main lib clock [prog, key_hex, telegram_hex]).cerr ≠
      "Error: " ++ "Failed to create EVP_CIPHER_CTX" ++ "\n" ∧
    (main lib clock [prog, key_hex, telegram_hex]).cerr ≠
      "Error: " ++ "EVP_DecryptInit_ex failed" ++ "\n" ∧
    (main lib clock [prog, key_hex, telegram_hex]).cerr ≠
      "Error: " ++ "AES decryption failed" ++ "\n" := by
  have hterr := hex_to_bytes_odd telegram_hex hodd
  have hex_err : ∃ e, main_try lib clock key_hex telegram_hex = .error e ∧
      (e = .invalid_argument "Hex string length must be even." ∨
        ∃ a b, ¬ (is_hex_digit a ∧ is_hex_digit b) ∧
          e = .invalid_argument ("Invalid hex character found: " ++ String.mk [a, b])) := by
    cases hk : hex_to_bytes key_hex with
    | error e =>
      refine ⟨e, main_try_error_key lib clock key_hex telegram_hex e hk, ?_⟩
      rcases (hex_to_bytes_error_what key_hex e hk).2 with h | ⟨a, b, _, _, hab, h⟩
      · exact Or.inl h
      · exact Or.inr ⟨a, b, hab, h⟩
    | ok key_bytes =>
      exact ⟨_, main_try_error_telegram lib clock key_hex telegram_hex key_bytes _ hk hterr,
        Or.inl rfl⟩
  obtain ⟨e, hm, hform⟩ := hex_err
  rw [main_of_three_error lib clock prog key_hex telegram_hex e hm]
  refine ⟨rfl, rfl, ?_, ?_, ?_, ?_, ?_⟩
  · rcases hform with rfl | ⟨a, b, hab, rfl⟩
    · exact Or.inl rfl
    · exact Or.inr ⟨a, b, hab, rfl⟩
  all_goals
    intro hcerr
    have hw := error_line_inj _ _ hcerr
    rcases hform with rfl | ⟨a, b, hab, rfl⟩
    · revert hw; simp only [exception.what]; decide
    · exact invalid_hex_message_ne a b _ (by decide) hw

theorem main_odd_telegram_witness :
    (main libcrypto none ["wmbus", "00", "abc"]).status = 1 :=
  (main_odd_telegram libcrypto none "wmbus" "00" "abc" (by decide)).1

/-! ## The error line and the order of the stages: claims C17 and C18 -/

theorem is_one_line_error_line (m : String) :
    is_one_line ("Error: " ++ m ++ "\n") ↔ '\n' ∉ m.data := by
  unfold is_one_line
  rw [error_line_data]
  have hlast : ("Error: ".data ++ (m.data ++ ['\n'])).getLast? = some '\n' := by
    rw [← List.append_assoc, List.getLast?_append]
    rfl
  have hcount : ("Error: ".data ++ (m.data ++ ['\n'])).count '\n' = m.data.count '\n' + 1 := by
    rw [List.count_append, List.count_append]
    have h0 : "Error: ".data.count '\n' = 0 := by decide
    have h1 : ['\n'].count '\n' = 1 := by decide
    omega
  rw [hcount]
  constructor
  · rintro ⟨_, hc⟩
    exact List.count_eq_zero.1 (by omega)
  · intro hm
    exact ⟨hlast, by rw [List.count_eq_zero.2 hm]⟩

theorem invalid_hex_message_newline (a b : Char) (ha : a ≠ '\n') (hb : b ≠ '\n') :
    '\n' ∉ ("Invalid hex character found: " ++ String.mk [a, b]).data := by
  rw [string_append_data]
  intro hmem
  rcases List.mem_append.1 hmem with h | h
  · revert h; decide
  · simp only [List.mem_cons, List.mem_singleton, List.not_mem_nil, or_false] at h
    rcases h with h | h
    · exact ha h.symm
    · exact hb h.symm

theorem hex_to_bytes_error_no_newline (hex : String) (e : exception)
    (h : hex_to_bytes hex = .error e) (hn : '\n' ∉ hex.data) : '\n' ∉ e.what.data := by
  rcases (hex_to_bytes_error_what hex e h).2 with rfl | ⟨a, b, ha, hb, _, rfl⟩
  · decide
  · exact invalid_hex_message_newline a b (fun h => hn (h ▸ ha)) (fun h => hn (h ▸ hb))

theorem main_try_error_no_newline (lib : OpenSSL) (clock : Option String)
    (key_hex telegram_hex : String) (e : exception)
    (h : main_try lib clock key_hex telegram_hex = .error e)
    (hk : '\n' ∉ key_hex.data) (ht : '\n' ∉ telegram_hex.data) : '\n' ∉ e.what.data := by
  rcases main_try_cases lib clock key_hex telegram_hex with
    ⟨e2, he, hm⟩ | ⟨_, e2, _, he, hm⟩ | ⟨_, _, e2, _, _, _, hd, hm⟩ | ⟨_, _, _, _, _, _, hm⟩
  · rw [hm] at h; cases h
    exact hex_to_bytes_error_no_newline key_hex _ he hk
  · rw [hm] at h; cases h
    exact hex_to_bytes_error_no_newline telegram_hex _ he ht
  · rw [hm] at h; cases h
    rcases aes_decrypt_error_form lib _ _ _ _ _ hd with rfl | rfl | rfl | rfl <;> decide
  · rw [hm] at h; cases h

/-- C17, as the specification states it, does not hold: with the key argument
`0` followed by a newline character the pipeline fails, and what is written to
the error stream is not one line, the newline of the argument being copied into
the message. -/
theorem main_error_two_lines :
    (main libcrypto none ["wmbus", "0\n", "00"]).status = 1 ∧
    (main libcrypto none ["wmbus", "0\n", "00"]).cerr =
      "Error: Invalid hex character found: 0\n\n" ∧
    ¬ is_one_line (main libcrypto none ["wmbus", "0\n", "00"]).cerr := by
  decide

/-- C17, amended: for every pair of arguments on which the pipeline fails, what
is written to the error stream is the prefix `Error: `, the error's message and
a terminating newline; this is exactly one line if and only if the message holds
no newline, which is the case whenever neither argument holds a newline
character. -/
theorem main_error_line (lib : OpenSSL) (clock : Option String)
    (prog key_hex telegram_hex : String)
    (hfail : (main lib clock [prog, key_hex, telegram_hex]).status = 1) :
    ∃ e, main_try lib clock key_hex telegram_hex = .error e ∧
      (main lib clock [prog, key_hex, telegram_hex]).cerr = "Error: " ++ e.what ++ "\n" ∧
      (is_one_line (main lib clock [prog, key_hex, telegram_hex]).cerr ↔ '\n' ∉ e.what.data) ∧
      ('\n' ∉ key_hex.data → '\n' ∉ telegram_hex.data →
        is_one_line (main lib clock [prog, key_hex, telegram_hex]).cerr) := by
  cases hm : main_try lib clock key_hex telegram_hex with
  | ok report =>
    rw [main_of_three_ok lib clock prog key_hex telegram_hex report hm] at hfail
    simp at hfail
  | error e =>
    rw [main_of_three_error lib clock prog key_hex telegram_hex e hm]
    refine ⟨e, rfl, rfl, is_one_line_error_line e.what, fun hk ht => ?_⟩
    exact (is_one_line_error_line e.what).2
      (main_try_error_no_newline lib clock key_hex telegram_hex e hm hk ht)

theorem main_error_line_witness :
    ∃ e, main_try libcrypto none "0g" "00" = .error e ∧
      (main libcrypto none ["wmbus", "0g", "00"]).cerr = "Error: " ++ e.what ++ "\n" ∧
      (is_one_line (main libcrypto none ["wmbus", "0g", "00"]).cerr ↔ '\n' ∉ e.what.data) ∧
      ('\n' ∉ "0g".data → '\n' ∉ "00".data →
        is_one_line (main libcrypto none ["wmbus", "0g", "00"]).cerr) :=
  main_error_line libcrypto none "wmbus" "0g" "00" (by decide)

/-- C18: the pipeline fails at the first failing stage, in the order key hex,
telegram hex, decryption. An invalid key hex is reported whatever the telegram
and the library are; with a valid key hex, an invalid telegram hex is reported
whatever the length of the key is; the key-size error is reported exactly when
both arguments are valid hex and the key is not 16 bytes (32 digits), and then
the run is the same for every library, so no decryption is attempted. -/
theorem main_first_failure (lib : OpenSSL) (clock : Option String)
    (prog key_hex telegram_hex : String) :
    (¬ is_hex_string key_hex →
      ∃ e, hex_to_bytes key_hex = .error e ∧
        ∀ (lib2 : OpenSSL) (telegram2 : String),
          main lib2 clock [prog, key_hex, telegram2] =
            { cout := "", cerr := "Error: " ++ e.what ++ "\n", status := 1 }) ∧
    (is_hex_string key_hex → ¬ is_hex_string telegram_hex →
      ∃ e, hex_to_bytes telegram_hex = .error e ∧
        ∀ lib2 : OpenSSL,
          main lib2 clock [prog, key_hex, telegram_hex] =
            { cout := "", cerr := "Error: " ++ e.what ++ "\n", status := 1 }) ∧
    (main_try lib clock key_hex telegram_hex =
        .error (.invalid_argument "AES-128 key must be 16 bytes.") ↔
      (is_hex_string key_hex ∧ is_hex_string telegram_hex ∧ key_hex.length ≠ 32)) ∧
    (is_hex_string key_hex → is_hex_string telegram_hex → key_hex.length ≠ 32 →
      ∀ lib2 : OpenSSL,
        main lib2 clock [prog, key_hex, telegram_hex] =
          { cout := "", cerr := "Error: " ++ "AES-128 key must be 16 bytes." ++ "\n",
            status := 1 }) := by
  have hsize : is_hex_string key_hex → is_hex_string telegram_hex → key_hex.length ≠ 32 →
      ∀ lib2 : OpenSSL, main_try lib2 clock key_hex telegram_hex =
        .error (.invalid_argument "AES-128 key must be 16 bytes.") := by
    intro hk ht h32 lib2
    have hlen := pair_values_length_half key_hex hk.1
    have heven := hk.1
    exact main_try_key_size lib2 clock key_hex telegram_hex _ _
      (hex_to_bytes_valid key_hex hk.1 hk.2) (hex_to_bytes_valid telegram_hex ht.1 ht.2)
      (by omega)
  refine ⟨?_, ?_, ⟨?_, fun ⟨hk, ht, h32⟩ => hsize hk ht h32 lib⟩, ?_⟩
  · intro hk
    obtain ⟨e, he⟩ := hex_to_bytes_invalid key_hex hk
    exact ⟨e, he, fun lib2 telegram2 =>
      main_of_three_error lib2 clock prog key_hex telegram2 e
        (main_try_error_key lib2 clock key_hex telegram2 e he)⟩
  · intro hk ht
    obtain ⟨e, he⟩ := hex_to_bytes_invalid telegram_hex ht
    exact ⟨e, he, fun lib2 =>
      main_of_three_error lib2 clock prog key_hex telegram_hex e
        (main_try_error_telegram lib2 clock key_hex telegram_hex _ e
          (hex_to_bytes_valid key_hex hk.1 hk.2) he)⟩
  · intro h
    rcases main_try_cases lib clock key_hex telegram_hex with
      ⟨e, he, hm⟩ | ⟨_, e, _, he, hm⟩ | ⟨kb, tb, e, after, hkb, htb, hd, hm⟩ |
      ⟨_, _, _, _, _, _, hm⟩
    · rw [hm] at h; cases h
      rcases (hex_to_bytes_error_what key_hex _ he).2 with h2 | ⟨a, b, _, _, _, h2⟩
      · exact absurd h2 (by decide)
      · simp only [exception.invalid_argument.injEq] at h2
        exact absurd h2.symm (invalid_hex_message_ne a b _ (by decide))
    · rw [hm] at h; cases h
      rcases (hex_to_bytes_error_what telegram_hex _ he).2 with h2 | ⟨a, b, _, _, _, h2⟩
      · exact absurd h2 (by decide)
      · simp only [exception.invalid_argument.injEq] at h2
        exact absurd h2.symm (invalid_hex_message_ne a b _ (by decide))
    · rw [hm] at h; cases h
      obtain ⟨hkv, hkb2⟩ := hex_to_bytes_ok_valid key_hex kb hkb
      obtain ⟨htv, _⟩ := hex_to_bytes_ok_valid telegram_hex tb htb
      refine ⟨hkv, htv, fun h32 => ?_⟩
      have hlen := pair_values_length_half key_hex hkv.1
      have h16 : kb.length = 16 := by rw [hkb2]; omega
      obtain ⟨m, hmsg⟩ := aes_decrypt_runtime_of_16 lib kb tb [] after _ h16 hd
      cases hmsg
    · rw [hm] at h; cases h
  · intro hk ht h32 lib2
    exact main_of_three_error lib2 clock prog key_hex telegram_hex _ (hsize hk ht h32 lib2)

theorem main_first_failure_witness :
    (∃ e, hex_to_bytes "0g" = .error e ∧
        ∀ (lib2 : OpenSSL) (telegram2 : String),
          main lib2 none ["wmbus", "0g", telegram2] =
            { cout := "", cerr := "Error: " ++ e.what ++ "\n", status := 1 }) ∧
    (∃ e, hex_to_bytes "xyz" = .error e ∧
        ∀ lib2 : OpenSSL,
          main lib2 none ["wmbus", "00", "xyz"] =
            { cout := "", cerr := "Error: " ++ e.what ++ "\n", status := 1 }) ∧
    (∀ lib2 : OpenSSL,
        main lib2 none ["wmbus", "00", "01"] =
          { cout := "", cerr := "Error: " ++ "AES-128 key must be 16 bytes." ++ "\n",
            status := 1 }) :=
  ⟨(main_first_failure libcrypto none "wmbus" "0g" "").1 (by decide),
   (main_first_failure libcrypto none "wmbus" "00" "xyz").2.1 (by decide) (by decide),
   (main_first_failure libcrypto none "wmbus" "00" "01").2.2.2 (by decide) (by decide)
     (by decide)⟩

/-! ## The cipher as a key stream: claims C19 and C20 -/

theorem ctr128_encrypt_involution : ∀ (input : List Nat) (ctx : ctr_ctx),
    (ctr128_encrypt ctx (ctr128_encrypt ctx input).2).2 = input := by
  intro input
  induction input with
  | nil => intro ctx; simp [ctr128_encrypt]
  | cons b rest ih =>
    intro ctx
    simp only [ctr128_encrypt, ih, Nat.xor_assoc, Nat.xor_self, Nat.xor_zero]

theorem ctr128_encrypt_take : ∀ (input : List Nat) (n : Nat) (ctx : ctr_ctx),
    (ctr128_encrypt ctx input).2.take n = (ctr128_encrypt ctx (input.take n)).2 := by
  intro input
  induction input with
  | nil => intro n ctx; simp [ctr128_encrypt]
  | cons b rest ih =>
    intro n ctx
    cases n with
    | zero => simp [ctr128_encrypt]
    | succ n => simp only [ctr128_encrypt, List.take_succ_cons, ih]

theorem readings_upto_congr (d1 d2 : List Nat) : ∀ j : Nat,
    (∀ i < j, d1.getD i 0 = d2.getD i 0) → readings_upto d1 j = readings_upto d2 j := by
  intro j
  induction j with
  | zero => intro _; simp [readings_upto]
  | succ j ih =>
    intro h
    rw [readings_upto_succ, readings_upto_succ, ih (fun i hi => h i (by omega)),
      h j (by omega)]

theorem parse_payload_take (data : List Nat) :
    parse_payload data = parse_payload (data.take 15) := by
  rw [parse_payload_eq, parse_payload_eq]
  have hlen : min (data.take 15).length 15 = min data.length 15 := by
    simp only [List.length_take]; omega
  rw [hlen]
  apply readings_upto_congr
  intro i hi
  have hi15 : i < 15 := by omega
  simp [List.getD, List.getElem?_take, hi15]

/-- C19: with the counter block fixed to the all-zero IV, `aes_decrypt` is its
own inverse: for every 16-byte key and every byte buffer, decrypting the buffer
and then decrypting the result under the same key gives the buffer back. -/
theorem aes_decrypt_involution (key ciphertext plaintext1 plaintext2 : List Nat)
    (hkey : key.length = 16) :
    ∃ decrypted, aes_decrypt libcrypto key ciphertext plaintext1 = (.ok (), decrypted) ∧
      aes_decrypt libcrypto key decrypted plaintext2 = (.ok (), ciphertext) := by
  refine ⟨_, aes_decrypt_libcrypto key ciphertext plaintext1 hkey, ?_⟩
  rw [aes_decrypt_libcrypto key _ plaintext2 hkey, ctr128_encrypt_involution]

theorem aes_decrypt_involution_witness :
    ∃ decrypted, aes_decrypt libcrypto (List.range 16) [1, 2, 3] [] = (.ok (), decrypted) ∧
      aes_decrypt libcrypto (List.range 16) decrypted [] = (.ok (), [1, 2, 3]) :=
  aes_decrypt_involution (List.range 16) [1, 2, 3] [] [] (by decide)

/-- C20: the readings depend only on the key and the first 15 bytes of the
telegram: for every 16-byte key and every two ciphertexts with the same first 15
bytes (`take 15 c1 = take 15 c2`), both decryptions succeed and `parse_payload`
gives the same map on the two plaintexts. -/
theorem readings_depend_on_first_15 (key c1 c2 : List Nat) (hkey : key.length = 16)
    (hsame : c1.take 15 = c2.take 15) :
    ∃ d1 d2, aes_decrypt libcrypto key c1 [] = (.ok (), d1) ∧
      aes_decrypt libcrypto key c2 [] = (.ok (), d2) ∧
      parse_payload d1 = parse_payload d2 := by
  refine ⟨_, _, aes_decrypt_libcrypto key c1 [] hkey, aes_decrypt_libcrypto key c2 [] hkey, ?_⟩
  rw [parse_payload_take, ctr128_encrypt_take, hsame, ← ctr128_encrypt_take,
    ← parse_payload_take]

theorem readings_depend_on_first_15_witness :
    ∃ d1 d2, aes_decrypt libcrypto (List.range 16) (List.range 15 ++ [7]) [] = (.ok (), d1) ∧
      aes_decrypt libcrypto (List.range 16) (List.range 15 ++ [8, 9]) [] = (.ok (), d2) ∧
      parse_payload d1 = parse_payload d2 :=
  readings_depend_on_first_15 (List.range 16) (List.range 15 ++ [7]) (List.range 15 ++ [8, 9])
    (by decide) (by decide)

/-! ## Lemmas on the order of a `std::map` -/

theorem string_lt_trans : ∀ a b c : List Char,
    string_lt a b = true → string_lt b c = true → string_lt a c = true := by
  intro a
  induction a with
  | nil =>
    intro b c h1 h2
    cases b with
    | nil => simp [string_lt] at h1
    | cons y ys =>
      cases c with
      | nil => simp [string_lt] at h2
      | cons z zs => simp [string_lt]
  | cons x xs ih =>
    intro b c h1 h2
    cases b with
    | nil => simp [string_lt] at h1
    | cons y ys =>
      cases c with
      | nil => simp [string_lt] at h2
      | cons z zs =>
        simp only [string_lt] at h1 h2 ⊢
        by_cases hxy : x.toNat < y.toNat
        · by_cases hyz : y.toNat < z.toNat
          · have : x.toNat < z.toNat := by omega
            simp [this]
          · by_cases hzy : z.toNat < y.toNat
            · simp [hyz, hzy] at h2
            · have : x.toNat < z.toNat := by omega
              simp [this]
        · by_cases hyx : y.toNat < x.toNat
          · simp [hxy, hyx] at h1
          · simp only [hxy, hyx, if_false] at h1
            by_cases hyz : y.toNat < z.toNat
            · have : x.toNat < z.toNat := by omega
              simp [this]
            · by_cases hzy : z.toNat < y.toNat
              · simp [hyz, hzy] at h2
              · simp only [hyz, hzy, if_false] at h2
                have h3 : ¬ x.toNat < z.toNat := by omega
                have h4 : ¬ z.toNat < x.toNat := by omega
                simp only [h3, h4, if_false]
                exact ih ys zs h1 h2

theorem string_lt_asymm (a b : List Char) (h : string_lt a b = true) :
    string_lt b a = false := by
  cases hba : string_lt b a with
  | false => rfl
  | true =>
    have := string_lt_trans a b a h hba
    rw [string_lt_irrefl] at this
    cases this

theorem map_assign_key_mem : ∀ (m : List (String × double)) (key : String) (value : double)
    (x : String × double), x ∈ map_assign m key value →
    x.1 = key ∨ ∃ y ∈ m, y.1 = x.1 := by
  intro m
  induction m with
  | nil =>
    intro key value x hx
    simp only [map_assign, List.mem_singleton] at hx
    exact Or.inl (by rw [hx])
  | cons e rest ih =>
    intro key value x hx
    obtain ⟨k, v⟩ := e
    simp only [map_assign] at hx
    by_cases h1 : string_lt key.data k.data = true
    · rw [if_pos h1] at hx
      rcases List.mem_cons.1 hx with hx | hx
      · exact Or.inl (by rw [hx])
      · exact Or.inr ⟨x, hx, rfl⟩
    · by_cases h2 : string_lt k.data key.data = true
      · rw [if_neg h1, if_pos h2] at hx
        rcases List.mem_cons.1 hx with hx | hx
        · exact Or.inr ⟨(k, v), List.mem_cons_self _ _, by rw [hx]⟩
        · rcases ih key value x hx with h | ⟨y, hy, hyx⟩
          · exact Or.inl h
          · exact Or.inr ⟨y, List.mem_cons_of_mem _ hy, hyx⟩
      · rw [if_neg h1, if_neg h2] at hx
        rcases List.mem_cons.1 hx with hx | hx
        · exact Or.inr ⟨(k, v), List.mem_cons_self _ _, by rw [hx]⟩
        · exact Or.inr ⟨x, List.mem_cons_of_mem _ hx, rfl⟩

theorem map_assign_sorted : ∀ (m : List (String × double)) (key : String) (value : double),
    map_sorted m → map_sorted (map_assign m key value) := by
  intro m
  induction m with
  | nil => intro key value _; simp [map_assign, map_sorted]
  | cons e rest ih =>
    intro key value hs
    obtain ⟨k, v⟩ := e
    unfold map_sorted at hs ⊢
    rw [List.pairwise_cons] at hs
    obtain ⟨hhead, htail⟩ := hs
    simp only [map_assign]
    by_cases h1 : string_lt key.data k.data = true
    · simp only [h1, if_true]
      refine List.Pairwise.cons ?_ (List.Pairwise.cons hhead htail)
      intro y hy
      simp only [List.mem_cons] at hy
      rcases hy with rfl | hy
      · exact h1
      · exact string_lt_trans _ _ _ h1 (hhead y hy)
    · by_cases h2 : string_lt k.data key.data = true
      · simp only [h1, h2, if_true, if_false]
        refine List.Pairwise.cons ?_ (ih key value htail)
        intro y hy
        rcases map_assign_key_mem rest key value y hy with h | ⟨z, hz, hzy⟩
        · rw [h]; exact h2
        · rw [← hzy]; exact hhead z hz
      · simp only [h1, h2, if_false]
        exact List.Pairwise.cons hhead htail

theorem readings_upto_sorted (data : List Nat) : ∀ j, map_sorted (readings_upto data j) := by
  intro j
  induction j with
  | zero => simp [readings_upto, map_sorted]
  | succ j ih =>
    rw [readings_upto_succ]
    exact map_assign_sorted _ _ _ ih

theorem parse_payload_sorted (data : List Nat) : map_sorted (parse_payload data) := by
  rw [parse_payload_eq]
  exact readings_upto_sorted data _

theorem sorted_perm_eq (l1 l2 : List (String × double)) (hp : l1.Perm l2)
    (h1 : map_sorted l1) (h2 : map_sorted l2) : l1 = l2 := by
  haveI : IsAntisymm (String × double) (fun a b => string_lt a.1.data b.1.data = true) :=
    ⟨fun a b hab hba => by
      rw [string_lt_asymm _ _ hab] at hba
      cases hba⟩
  exact List.eq_of_perm_of_sorted hp h1 h2

theorem key_order_perm (n : Nat) : (key_order n).Perm (List.range n) := by
  unfold key_order
  have h := List.filter_append_perm (fun i => decide (9 ≤ i)) (List.range n)
  have hfun : (fun x : Nat => !decide (9 ≤ x)) = (fun i => decide (i < 9)) := by
    funext x
    by_cases h9 : 9 ≤ x
    · have h2 : ¬ x < 9 := by omega
      simp [h9, h2]
    · have h2 : x < 9 := by omega
      simp [h9, h2]
  rw [hfun] at h
  exact h

theorem key_order_sorted : ∀ n < 16,
    ((key_order n).map reading_key).Pairwise (fun a b => string_lt a.data b.data = true) := by
  decide

theorem key_order_small (n : Nat) (h : n ≤ 9) : key_order n = List.range n := by
  unfold key_order
  have h1 : (List.range n).filter (fun i => decide (9 ≤ i)) = [] := by
    rw [List.filter_eq_nil_iff]
    intro a ha
    have := List.mem_range.1 ha
    simp
    omega
  have h2 : (List.range n).filter (fun i => decide (i < 9)) = List.range n := by
    rw [List.filter_eq_self]
    intro a ha
    have := List.mem_range.1 ha
    simp
    omega
  rw [h1, h2, List.nil_append]

theorem parse_payload_in_key_order (data : List Nat) :
    parse_payload data =
      (key_order (min data.length 15)).map
        (fun i => (reading_key i, reading_value (data.getD i 0))) := by
  apply sorted_perm_eq
  · have hperm := readings_upto_perm data (min data.length 15) (by omega)
    rw [← parse_payload_eq] at hperm
    exact hperm.trans ((key_order_perm _).map _).symm
  · exact parse_payload_sorted data
  · unfold map_sorted
    rw [List.pairwise_map]
    have hs := key_order_sorted (min data.length 15) (by omega)
    rw [List.pairwise_map] at hs
    exact hs

/-! ## The report: claims C14 and C16 -/

theorem entries_text_nil : entries_text [] = "" := rfl

theorem entries_text_cons (e : String × double) (rest : List (String × double)) :
    entries_text (e :: rest) =
      entry_line e ++ (if 0 < rest.length then "," else "") ++ "\n" ++ entries_text rest := by
  unfold entries_text
  rw [List.length_cons, List.range_succ_eq_map, List.map_cons, List.map_map, concat_texts]
  have hfun : ((fun i => entry_line ((e :: rest).getD i ("", ⟨0, 0⟩)) ++
        (if i + 1 < rest.length + 1 then "," else "") ++ "\n") ∘ Nat.succ) =
      (fun i => entry_line (rest.getD i ("", ⟨0, 0⟩)) ++
        (if i + 1 < rest.length then "," else "") ++ "\n") := by
    funext i
    simp only [Function.comp, Nat.succ_eq_add_one, List.getD_cons_succ,
      Nat.add_lt_add_iff_right]
  rw [hfun]
  simp only [List.getD_cons_zero, Nat.zero_add, Nat.lt_add_left_iff_pos]

theorem print_entries_eq : ∀ m : List (String × double), print_entries m = entries_text m := by
  intro m
  induction m with
  | nil => rfl
  | cons e rest ih =>
    obtain ⟨k, v⟩ := e
    rw [entries_text_cons]
    cases rest with
    | nil =>
      apply string_data_inj
      simp [print_entries, entry_line, entries_text_nil, string_append_data]
    | cons e2 rest2 =>
      rw [← ih]
      apply string_data_inj
      simp [print_entries, entry_line, string_append_data]

/-- C14: for every reading map (its entries in ascending key order, as in every
`std::map`) and every timestamp, the text of `print_json` is, in this order: the
opening brace, the four identification fields, every entry of the map once, one
per line as key then value, in the order of the map, which is the ascending
lexicographic order of the keys, each followed by a comma except the last, then
the five fixed fields `meter_datetime`, `set_date`, `total_m3`,
`current_status`, `status`, then the timestamp field and the closing brace. So
every reading lies between the identification block and the trailing block. -/
theorem print_json_layout (parsed_data : List (String × double)) (timestamp : String)
    (hmap : map_sorted parsed_data) :
    print_json parsed_data timestamp =
      "\x7b\n" ++
      ("  \"_\": \"telegram\",\n" ++ "  \"media\": \"water\",\n" ++
        "  \"meter\": \"generic_meter\",\n" ++ "  \"id\": \"unknown\",\n") ++
      entries_text parsed_data ++
      ("  ,\"meter_datetime\": \"2025-09-26 16:36\",\n" ++ "  \"set_date\": \"2128-03-31\",\n" ++
        "  \"total_m3\": 4.48,\n" ++ "  \"current_status\": \"OK\",\n" ++
        "  \"status\": \"OK\",\n") ++
      ("  \"timestamp\": \"" ++ timestamp ++ "\"\n") ++
      "\x7d\n" ∧
    (∀ i j, i < j → j < parsed_data.length →
      string_lt (parsed_data.getD i ("", ⟨0, 0⟩)).1.data
        (parsed_data.getD j ("", ⟨0, 0⟩)).1.data = true) := by
  constructor
  · unfold print_json
    rw [print_entries_eq]
    apply string_data_inj
    simp only [string_append_data, List.append_assoc]
  · intro i j hij hj
    have hi : i < parsed_data.length := by omega
    rw [List.getD_eq_getElem _ _ hi, List.getD_eq_getElem _ _ hj]
    exact (List.pairwise_iff_getElem.1 hmap) i j hi hj hij

theorem print_json_layout_witness :
    print_json (parse_payload [102, 7]) "2025-09-26T16:36:00Z" =
      "\x7b\n" ++
      ("  \"_\": \"telegram\",\n" ++ "  \"media\": \"water\",\n" ++
        "  \"meter\": \"generic_meter\",\n" ++ "  \"id\": \"unknown\",\n") ++
      entries_text (parse_payload [102, 7]) ++
      ("  ,\"meter_datetime\": \"2025-09-26 16:36\",\n" ++ "  \"set_date\": \"2128-03-31\",\n" ++
        "  \"total_m3\": 4.48,\n" ++ "  \"current_status\": \"OK\",\n" ++
        "  \"status\": \"OK\",\n") ++
      ("  \"timestamp\": \"" ++ "2025-09-26T16:36:00Z" ++ "\"\n") ++
      "\x7d\n" :=
  (print_json_layout (parse_payload [102, 7]) "2025-09-26T16:36:00Z" (by decide!)).1

theorem entries_text_example :
    entries_text (parse_payload [102, 7]) =
      "  \"consumption_at_history_1_m3\": 1.02,\n  \"consumption_at_history_2_m3\": 0.07\n" := by
  decide!

/-- C16, as the specification states it, does not hold: for a buffer of 10
bytes the keys of the map `parse_payload` returns, in the order of the map, are
not the keys for the positions 1, 2, ..., 10 in ascending order. -/
theorem parse_payload_order_refuted :
    (parse_payload (List.replicate 10 0)).map Prod.fst ≠
      (List.range (min (List.replicate 10 0).length 15)).map
        (fun i => "consumption_at_history_" ++ toString (i + 1) ++ "_m3") := by
  decide!

/-- C16, amended: for every plaintext buffer of at most 9 bytes the order of the
keys is the order of the positions: the map lists the readings for
`i = 1, ..., length` in ascending `i`. For a longer buffer the keys with a
two-digit number come first: the map lists the readings for
`i = 10, ..., min(length, 15)` in ascending `i` and after them those for
`i = 1, ..., 9`; the report lists them in that order. -/
theorem parse_payload_key_order (data : List Nat) :
    parse_payload data =
      (key_order (min data.length 15)).map
        (fun i => ("consumption_at_history_" ++ toString (i + 1) ++ "_m3",
          double_mul (double_of_int (data.getD i 0)) double_0_01)) ∧
    (data.length ≤ 9 →
      parse_payload data =
        (List.range data.length).map
          (fun i => ("consumption_at_history_" ++ toString (i + 1) ++ "_m3",
            double_mul (double_of_int (data.getD i 0)) double_0_01))) ∧
    key_order 15 = [9, 10, 11, 12, 13, 14, 0, 1, 2, 3, 4, 5, 6, 7, 8] := by
  refine ⟨parse_payload_in_key_order data, fun h9 => ?_, by decide⟩
  have h := parse_payload_in_key_order data
  have hmin : min data.length 15 = data.length := by omega
  rw [hmin, key_order_small _ h9] at h
  exact h

theorem parse_payload_key_order_witness :
    parse_payload [5, 6, 7] =
      (List.range [5, 6, 7].length).map
        (fun i => ("consumption_at_history_" ++ toString (i + 1) ++ "_m3",
          double_mul (double_of_int ([5, 6, 7].getD i 0)) double_0_01)) :=
  (parse_payload_key_order [5, 6, 7]).2.1 (by decide)

/-! ## The report as JSON: claim C15 -/

theorem json_run_append : ∀ (a b : List Char) (s : json_state × List json_frame),
    json_run s (a ++ b) =
      (match json_run s a with
        | none => none
        | some s2 => json_run s2 b) := by
  intro a
  induction a with
  | nil => intro b s; rfl
  | cons c cs ih =>
    intro b s
    simp only [List.cons_append, json_run]
    cases json_step s c with
    | none => rfl
    | some s2 => exact ih b s2

theorem json_run_none_append (a b : List Char) (s : json_state × List json_frame)
    (h : json_run s a = none) : json_run s (a ++ b) = none := by
  rw [json_run_append, h]

theorem json_recognizer_examples :
    is_json_object "\x7b\"a\": [1, -2.5e+07, \"x\\n\\u00e9\", true, null, \x7b\x7d, []] \x7d\n" = true ∧
    is_json_object "\x7b\"a\": 1,\x7d" = false ∧
    is_json_object "\x7b\"a\": 1,,\"b\": 2\x7d" = false ∧
    is_json_object "\x7b\"a\": 01\x7d" = false ∧
    is_json_object "[1]" = false ∧
    is_json_object (print_json (parse_payload [102]) "2025-09-26T16:36:00Z") = true ∧
    is_json_object (print_json (parse_payload (List.range 20)) "unknown_timestamp") = true := by
  decide!

theorem empty_telegram_run (clock : Option String) (prog : String) :
    main libcrypto clock [prog, "00000000000000000000000000000000", ""] =
      { cout := print_json [] (get_timestamp clock), cerr := "", status := 0 } := by
  apply main_of_three_ok
  have hd : aes_decrypt libcrypto (List.replicate 16 0) [] [] = (.ok (), []) := by
    rw [aes_decrypt_libcrypto _ _ _ (by decide)]
    rfl
  exact main_try_decrypt_ok libcrypto clock _ _ (List.replicate 16 0) [] [] zero_key_bytes
    (by decide) hd

/-- C15 at the failing input: with a valid key and the empty telegram the program
exits with status `0` and prints the report of the empty map, in which the comma
that ends the `id` member is followed by the comma that begins the
`meter_datetime` line, with no member between the two; for every timestamp this
text is not a well-formed JSON object. -/
theorem print_json_empty_map_not_json (clock : Option String) (prog timestamp : String) :
    main libcrypto clock [prog, "00000000000000000000000000000000", ""] =
      { cout := print_json [] (get_timestamp clock), cerr := "", status := 0 } ∧
    print_json [] timestamp =
      "\x7b\n  \"_\": \"telegram\",\n  \"media\": \"water\",\n  \"meter\": \"generic_meter\",\n" ++
      "  \"id\": \"unknown\",\n  ,\"meter_datetime\": \"2025-09-26 16:36\",\n" ++
      "  \"set_date\": \"2128-03-31\",\n  \"total_m3\": 4.48,\n  \"current_status\": \"OK\",\n" ++
      "  \"status\": \"OK\",\n  \"timestamp\": \"" ++ timestamp ++ "\"\n\x7d\n" ∧
    is_json_object (print_json [] timestamp) = false := by
  have htext : print_json [] timestamp =
      "\x7b\n  \"_\": \"telegram\",\n  \"media\": \"water\",\n  \"meter\": \"generic_meter\",\n" ++
      "  \"id\": \"unknown\",\n  ,\"meter_datetime\": \"2025-09-26 16:36\",\n" ++
      "  \"set_date\": \"2128-03-31\",\n  \"total_m3\": 4.48,\n  \"current_status\": \"OK\",\n" ++
      "  \"status\": \"OK\",\n  \"timestamp\": \"" ++ timestamp ++ "\"\n\x7d\n" := by
    apply string_data_inj
    simp only [print_json, print_entries, string_append_data, List.append_assoc]
    rfl
  refine ⟨empty_telegram_run clock prog, htext, ?_⟩
  have hstart : json_run (.value, [])
      ("\x7b\n  \"_\": \"telegram\",\n  \"media\": \"water\",\n  \"meter\": \"generic_meter\",\n" ++
        "  \"id\": \"unknown\",\n  ,").data = none := by
    decide!
  have hdata : (print_json [] timestamp).data =
      ("\x7b\n  \"_\": \"telegram\",\n  \"media\": \"water\",\n  \"meter\": \"generic_meter\",\n" ++
        "  \"id\": \"unknown\",\n  ,").data ++
      (("\"meter_datetime\": \"2025-09-26 16:36\",\n" ++
        "  \"set_date\": \"2128-03-31\",\n  \"total_m3\": 4.48,\n  \"current_status\": \"OK\",\n" ++
        "  \"status\": \"OK\",\n  \"timestamp\": \"").data ++ (timestamp.data ++ "\"\n\x7d\n".data)) := by
    rw [htext]
    simp only [string_append_data, List.append_assoc]
    rfl
  unfold is_json_object is_json_text
  rw [hdata, json_run_none_append _ _ _ hstart]
  rfl

theorem json_key_read : ∀ i < 15,
    json_run (.name, [.object]) ("  \"" ++ reading_key i ++ "\": ").data =
      some (.value, [.object]) := by
  decide!

theorem json_value_read : ∀ b < 256,
    number_read (json_run (.value, [.object]) (ostream_double (reading_value b)).data) = true := by
  decide!

theorem json_entry_read (i b : Nat) (hi : i < 15) (hb : b < 256) (tail : List Char) :
    ∃ s, number_read (some s) = true ∧
      json_run (.name, [.object])
        ((entry_line (reading_key i, reading_value b)).data ++ tail) = json_run s tail := by
  have hk := json_key_read i hi
  have hv := json_value_read b hb
  cases hrun : json_run (.value, [.object]) (ostream_double (reading_value b)).data with
  | none => rw [hrun] at hv; simp [number_read] at hv
  | some s =>
    rw [hrun] at hv
    refine ⟨s, hv, ?_⟩
    have hdata : (entry_line (reading_key i, reading_value b)).data =
        ("  \"" ++ reading_key i ++ "\": ").data ++ (ostream_double (reading_value b)).data := by
      simp only [entry_line, string_append_data]
    rw [hdata, List.append_assoc, json_run_append, hk]
    simp only
    rw [json_run_append, hrun]

theorem json_after_number (s : json_state × List json_frame) (h : number_read (some s) = true) :
    json_step s ',' = some (.name, [.object]) ∧ json_step s '\n' = some (.after, [.object]) := by
  simp only [number_read, Bool.or_eq_true, decide_eq_true_eq, Option.some.injEq] at h
  rcases h with ((rfl | rfl) | rfl) | rfl <;> exact ⟨by decide, by decide⟩

theorem json_entries_read : ∀ (l : List Nat) (data : List Nat), l ≠ [] →
    (∀ i ∈ l, i < 15 ∧ data.getD i 0 < 256) → ∀ tail : List Char,
    json_run (.name, [.object])
      ((print_entries (l.map (fun i => (reading_key i, reading_value (data.getD i 0))))).data
        ++ tail) = json_run (.after, [.object]) tail := by
  intro l
  induction l with
  | nil => intro data h; exact absurd rfl h
  | cons i rest ih =>
    intro data _ hall tail
    have hi := hall i (List.mem_cons_self _ _)
    cases rest with
    | nil =>
      obtain ⟨s, hs, hrun⟩ := json_entry_read i (data.getD i 0) hi.1 hi.2 ('\n' :: tail)
      have hdata : (print_entries ([i].map
          (fun i => (reading_key i, reading_value (data.getD i 0))))).data ++ tail =
          (entry_line (reading_key i, reading_value (data.getD i 0))).data ++ ('\n' :: tail) := by
        simp only [List.map_cons, List.map_nil, print_entries, entry_line, string_append_data,
          List.append_assoc]
        rfl
      rw [hdata, hrun, json_run, (json_after_number s hs).2]
    | cons j rest2 =>
      obtain ⟨s, hs, hrun⟩ := json_entry_read i (data.getD i 0) hi.1 hi.2
        (',' :: '\n' :: ((print_entries ((j :: rest2).map
          (fun i => (reading_key i, reading_value (data.getD i 0))))).data ++ tail))
      have hdata : (print_entries ((i :: j :: rest2).map
          (fun i => (reading_key i, reading_value (data.getD i 0))))).data ++ tail =
          (entry_line (reading_key i, reading_value (data.getD i 0))).data ++
            (',' :: '\n' :: ((print_entries ((j :: rest2).map
              (fun i => (reading_key i, reading_value (data.getD i 0))))).data ++ tail)) := by
        simp only [List.map_cons, print_entries, entry_line, string_append_data,
          List.append_assoc]
        rfl
      rw [hdata, hrun, json_run, (json_after_number s hs).1]
      simp only
      rw [json_run]
      have hstep : json_step (.name, [.object]) '\n' = some (.name, [.object]) := by decide
      rw [hstep]
      exact ih data (by simp) (fun k hk => hall k (List.mem_cons_of_mem _ hk)) tail

theorem json_string_read : ∀ (text tail : List Char) (stack : List json_frame),
    (∀ c ∈ text, json_plain c = true) →
    json_run (.str false, stack) (text ++ tail) = json_run (.str false, stack) tail := by
  intro text
  induction text with
  | nil => intro tail stack _; rfl
  | cons c cs ih =>
    intro tail stack h
    have hc := h c (List.mem_cons_self _ _)
    simp only [json_plain, Bool.and_eq_true, bne_iff_ne, ne_eq, decide_eq_true_eq] at hc
    obtain ⟨⟨h1, h2⟩, h3⟩ := hc
    have hstep : json_step (.str false, stack) c = some (.str false, stack) := by
      have h4 : ¬ c.toNat < 0x20 := by omega
      simp [json_step, h1, h2, h4]
    simp only [List.cons_append, json_run, hstep]
    exact ih tail stack (fun d hd => h d (List.mem_cons_of_mem _ hd))

theorem key_order_mem (n i : Nat) (h : i ∈ key_order n) : i < n :=
  List.mem_range.1 ((key_order_perm n).mem_iff.1 h)

theorem key_order_ne_nil (n : Nat) (h : 0 < n) : key_order n ≠ [] := by
  intro hnil
  have hlen := (key_order_perm n).length_eq
  rw [hnil, List.length_range] at hlen
  simp at hlen
  omega

theorem print_json_data (m : List (String × double)) (timestamp : String) :
    (print_json m timestamp).data =
      ("\x7b\n" ++ "  \"_\": \"telegram\",\n" ++ "  \"media\": \"water\",\n" ++
        "  \"meter\": \"generic_meter\",\n" ++ "  \"id\": \"unknown\",\n").data ++
      ((print_entries m).data ++
        (("  ,\"meter_datetime\": \"2025-09-26 16:36\",\n" ++ "  \"set_date\": \"2128-03-31\",\n" ++
          "  \"total_m3\": 4.48,\n" ++ "  \"current_status\": \"OK\",\n" ++
          "  \"status\": \"OK\",\n" ++ "  \"timestamp\": \"").data ++
          (timestamp.data ++ ("\"\n" ++ "\x7d\n").data))) := by
  simp only [print_json, string_append_data, List.append_assoc]

/-- The report of a non-empty buffer is a well-formed JSON object: for every
non-empty byte buffer and every timestamp of plain characters, the text
`print_json` writes for the readings `parse_payload` extracts is accepted by the
recognizer. Only the empty map falls outside. -/
theorem print_json_readings_json (data : List Nat) (timestamp : String) (hne : data ≠ [])
    (hbytes : ∀ b ∈ data, b < 256) (hts : ∀ c ∈ timestamp.data, json_plain c = true) :
    is_json_object (print_json (parse_payload data) timestamp) = true := by
  have hlen : 0 < data.length := List.length_pos.2 hne
  have hn : 0 < min data.length 15 := by omega
  have hall : ∀ i ∈ key_order (min data.length 15), i < 15 ∧ data.getD i 0 < 256 := by
    intro i hi
    have hlt := key_order_mem _ i hi
    have hil : i < data.length := by omega
    refine ⟨by omega, ?_⟩
    rw [List.getD_eq_getElem _ _ hil]
    exact hbytes _ (List.getElem_mem _)
  have hhead : json_run (.value, [])
      ("\x7b\n" ++ "  \"_\": \"telegram\",\n" ++ "  \"media\": \"water\",\n" ++
        "  \"meter\": \"generic_meter\",\n" ++ "  \"id\": \"unknown\",\n").data =
      some (.name, [.object]) := by
    decide!
  have hfixed : json_run (.after, [.object])
      ("  ,\"meter_datetime\": \"2025-09-26 16:36\",\n" ++ "  \"set_date\": \"2128-03-31\",\n" ++
        "  \"total_m3\": 4.48,\n" ++ "  \"current_status\": \"OK\",\n" ++
        "  \"status\": \"OK\",\n" ++ "  \"timestamp\": \"").data =
      some (.str false, [.object]) := by
    decide!
  have hend : json_run (.str false, [.object]) ("\"\n" ++ "\x7d\n").data = some (.after, []) := by
    decide
  have hrun : json_run (.value, []) (print_json (parse_payload data) timestamp).data =
      some (.after, []) := by
    rw [print_json_data, json_run_append, hhead]
    simp only
    rw [parse_payload_in_key_order,
      json_entries_read _ data (key_order_ne_nil _ hn) hall, json_run_append, hfixed]
    simp only
    rw [json_string_read _ _ _ hts, hend]
  have hbrace : ((print_json (parse_payload data) timestamp).data.dropWhile json_ws).head? =
      some '\x7b' := by
    rw [print_json_data]
    rfl
  unfold is_json_object is_json_text
  rw [hrun, hbrace]
  rfl

theorem print_json_readings_json_example :
    is_json_object (print_json (parse_payload [0, 1, 254]) "2025-09-26T16:36:00Z") = true :=
  print_json_readings_json [0, 1, 254] "2025-09-26T16:36:00Z" (by decide) (by decide) (by decide)

end WMBus
